import Mathlib

/-!
# Verification of the traffic-survey homologation pipeline

Shallow embedding of the four pipeline stages of the repository
(`merge_cl_comp.py`, `merge_cl_ph.py`, `interp_tricycles.py`, `homologate.py`)
together with proofs of the specification claims about them.

Conventions used throughout:
* pandas cell values are modelled as `Option Int` (`none` = NaN / missing);
  intermediate interpolation results live in `ℚ`.
* A DataFrame is a list of rows; where the source keeps key columns
  (`fuente de datos`, `intervalo`, `movimiento`, ...) these are structure
  fields, the remaining (vehicle-class) columns are an association list
  keyed by column name.
* Python's `round` (round half to even) on the exact rational value is
  modelled by `pyRound`; the binary floating-point representation error of
  the Python intermediates at exact tie points is not modelled.
-/

namespace MergeClComp

/-- One record of a family-A day-file after `normalizar_columnas`:
the three merge-key columns (`fuente de datos`, `intervalo`, `movimiento`)
are fields, the vehicle-class columns are the association list `cells`
(`none` = NaN).  The metadata columns (`proyecto`, `localizacion`,
`geolocalizacion`), which `merge_vehicle_data` never touches, are elided. -/
structure Row where
  fuente : String
  intervalo : String
  movimiento : String
  cells : List (String × Option Int)
  deriving Repr, DecidableEq

/-- A day-file: `cols` is the list of vehicle-class column names
(the columns of the sheet minus the identifier and metadata columns,
as computed in lines 112-115 of `merge_cl_comp.py`). -/
structure Dataset where
  cols : List String
  rows : List Row
  deriving Repr, DecidableEq

/-- First association-list entry for a column name. -/
def findCol : List (String × Option Int) → String → Option (Option Int)
  | [], _ => none
  | (k, v) :: t, c => if k = c then some v else findCol t c

/-- Look a cell up by column name; a column that is absent from the row
behaves like NaN (the source guards with `col_correspondiente in df2.columns`
and `pd.isna`). -/
def getCell (r : Row) (c : String) : Option Int :=
  match findCol r.cells c with
  | none => none
  | some v => v

/-- The row has an entry (possibly NaN) for the column, as every row of a
DataFrame does for every column of the frame. -/
def hasCol (r : Row) (c : String) : Prop :=
  (findCol r.cells c).isSome

instance (r : Row) (c : String) : Decidable (hasCol r c) :=
  inferInstanceAs (Decidable ((findCol r.cells c).isSome = true))

/-- Set a cell (models `df_resultado.at[idx, col] = valor_nuevo`). -/
def setCell (r : Row) (c : String) (v : Int) : Row :=
  { r with cells := r.cells.map (fun p => if p.1 = c then (p.1, some v) else p) }

/-- `str.strip` applied to the three key columns
(lines 118-120 and 125-127 of `merge_cl_comp.py`). -/
def stripKeys (r : Row) : Row :=
  { r with fuente := r.fuente.trim, intervalo := r.intervalo.trim,
           movimiento := r.movimiento.trim }

/-- The first row of a complementary file matching the base row on the
exact (fuente de datos, intervalo, movimiento) key
(`filas_coincidentes.iloc[0]`, lines 136-143). -/
def firstMatch (rows2 : List Row) (r : Row) : Option Row :=
  rows2.find? (fun r2 =>
    r2.fuente = r.fuente ∧ r2.intervalo = r.intervalo ∧ r2.movimiento = r.movimiento)

/-- A base cell is a fill candidate when it is NaN or 0
(`pd.isna(...) or ... == 0`, line 148). -/
def cellEmpty (v : Option Int) : Bool :=
  match v with
  | none => true
  | some x => x = 0

/-- Update one base row from one complementary file: if some row of the
complementary file matches on the key, every vehicle column whose base
value is NaN or 0 receives the matching row's value provided that value
is itself present and nonzero (lines 143-155). -/
def mergeRowWith (vehCols : List String) (rows2 : List Row) (r : Row) : Row :=
  match firstMatch rows2 r with
  | none => r
  | some r2 =>
      vehCols.foldl (fun acc c =>
        if cellEmpty (getCell acc c) then
          match getCell r2 c with
          | some v => if v ≠ 0 then setCell acc c v else acc
          | none => acc
        else acc) r

/-- `merge_vehicle_data`, data path only (lines 108-158 of
`merge_cl_comp.py`): strip the key columns of the base and of every
complementary file, then apply the complementary files in list order,
row by row. -/
def mergeVehicleData (base : Dataset) (comps : List Dataset) : Dataset :=
  let rows0 := base.rows.map stripKeys
  { cols := base.cols
    rows := comps.foldl
      (fun rows d2 =>
        let rows2 := d2.rows.map stripKeys
        rows.map (mergeRowWith base.cols rows2)) rows0 }

/-- The value a complementary file offers for column `c` of base row `r`:
present and nonzero in the file's first key-matching row, else nothing. -/
def cand (rows2 : List Row) (r : Row) (c : String) : Option Int :=
  match firstMatch rows2 r with
  | none => none
  | some r2 =>
      match getCell r2 c with
      | some v => if v ≠ 0 then some v else none
      | none => none

/-- Specification-side description of the fill: the value the claim says a
cell ends with — the base value if it is present and nonzero, otherwise the
first present-and-nonzero value contributed by the complementary files in
list order (each file contributing through its first key-matching row). -/
def fillSpec (comps : List (List Row)) (r : Row) (c : String) : Option Int :=
  if cellEmpty (getCell r c) then
    match comps.findSome? (fun rows2 => cand rows2 r c) with
    | some v => some v
    | none => getCell r c
  else getCell r c

/-- The effect of one complementary file on one cell of one base row. -/
def fill1 (rows2 : List Row) (r : Row) (c : String) : Option Int :=
  if cellEmpty (getCell r c) then
    match cand rows2 r c with
    | some v => some v
    | none => getCell r c
  else getCell r c

/-- All complementary files applied to one row, in list order. -/
def applyRow (cols : List String) (comps : List (List Row)) (r : Row) : Row :=
  comps.foldl (fun r rows2 => mergeRowWith cols rows2 r) r

theorem findCol_update (cells : List (String × Option Int)) (c c' : String) (v : Int) :
    findCol (cells.map (fun p => if p.1 = c' then (p.1, some v) else p)) c
      = if c' = c then (findCol cells c).map (fun _ => some v) else findCol cells c := by
  induction cells with
  | nil => split <;> rfl
  | cons p t ih =>
      obtain ⟨k, w⟩ := p
      simp only [List.map_cons]
      by_cases hk : k = c'
      · rw [if_pos (show (k, w).1 = c' from hk)]
        by_cases hc : c' = c
        · subst hk; subst hc
          simp [findCol]
        · have hkc : ¬k = c := by rw [hk]; exact hc
          simp only [findCol, if_neg hkc, ih, if_neg hc]
      · rw [if_neg (show ¬(k, w).1 = c' from hk)]
        by_cases hc : c' = c
        · have hkc : ¬k = c := fun h => hk (h.trans hc.symm)
          simp only [findCol, if_neg hkc, ih, if_pos hc]
        · by_cases hkc : k = c
          · simp only [findCol, if_pos hkc, if_neg hc]
          · simp only [findCol, if_neg hkc, ih, if_neg hc]

theorem getCell_setCell_self (r : Row) (c : String) (v : Int) (h : hasCol r c) :
    getCell (setCell r c v) c = some v := by
  unfold hasCol at h
  unfold getCell setCell
  simp only [findCol_update, if_pos rfl]
  cases hfc : findCol r.cells c with
  | none => rw [hfc] at h; simp at h
  | some w => simp

theorem getCell_setCell_ne (r : Row) (c c' : String) (v : Int) (h : c' ≠ c) :
    getCell (setCell r c' v) c = getCell r c := by
  unfold getCell setCell
  simp only [findCol_update, if_neg h]

theorem hasCol_setCell (r : Row) (c c' : String) (v : Int) :
    hasCol (setCell r c' v) c ↔ hasCol r c := by
  unfold hasCol setCell
  simp only [findCol_update]
  by_cases h : c' = c
  · subst h; cases findCol r.cells c' <;> simp
  · rw [if_neg h]

theorem getCell_stripKeys (r : Row) (c : String) :
    getCell (stripKeys r) c = getCell r c := rfl

theorem hasCol_stripKeys (r : Row) (c : String) :
    hasCol (stripKeys r) c ↔ hasCol r c := Iff.rfl

/-- One column update step of the inner loop of `merge_vehicle_data`
(the body of the `for col in columnas_vehiculos` loop, matched row fixed). -/
def colStep (r2 : Row) (acc : Row) (c : String) : Row :=
  if cellEmpty (getCell acc c) then
    match getCell r2 c with
    | some v => if v ≠ 0 then setCell acc c v else acc
    | none => acc
  else acc

theorem mergeRowWith_none (cols : List String) (rows2 : List Row) (r : Row)
    (h : firstMatch rows2 r = none) : mergeRowWith cols rows2 r = r := by
  unfold mergeRowWith
  rw [h]

theorem mergeRowWith_some (cols : List String) (rows2 : List Row) (r r2 : Row)
    (h : firstMatch rows2 r = some r2) :
    mergeRowWith cols rows2 r = cols.foldl (colStep r2) r := by
  unfold mergeRowWith
  rw [h]
  rfl

theorem colStep_keys (r2 acc : Row) (c : String) :
    (colStep r2 acc c).fuente = acc.fuente ∧ (colStep r2 acc c).intervalo = acc.intervalo ∧
      (colStep r2 acc c).movimiento = acc.movimiento := by
  unfold colStep
  split
  · split
    · split <;> exact ⟨rfl, rfl, rfl⟩
    · exact ⟨rfl, rfl, rfl⟩
  · exact ⟨rfl, rfl, rfl⟩

theorem colStep_hasCol (r2 acc : Row) (c d : String) :
    hasCol (colStep r2 acc c) d ↔ hasCol acc d := by
  unfold colStep
  split
  · split
    · split
      · exact hasCol_setCell acc d c _
      · exact Iff.rfl
    · exact Iff.rfl
  · exact Iff.rfl

theorem getCell_colStep_ne (r2 acc : Row) (c d : String) (h : c ≠ d) :
    getCell (colStep r2 acc c) d = getCell acc d := by
  unfold colStep
  split
  · split
    · split
      · exact getCell_setCell_ne acc d c _ h
      · rfl
    · rfl
  · rfl

/-- Value evolution of a single cell under one column update. -/
def step1 (r2 : Row) (c : String) (w : Option Int) : Option Int :=
  if cellEmpty w then
    match getCell r2 c with
    | some v => if v ≠ 0 then some v else w
    | none => w
  else w

theorem getCell_colStep_self (r2 acc : Row) (c : String) (h : hasCol acc c) :
    getCell (colStep r2 acc c) c = step1 r2 c (getCell acc c) := by
  unfold colStep step1
  split
  · split
    · split
      · exact getCell_setCell_self acc c _ h
      · rfl
    · rfl
  · rfl

theorem step1_idem (r2 : Row) (c : String) (w : Option Int) :
    step1 r2 c (step1 r2 c w) = step1 r2 c w := by
  by_cases hw : cellEmpty w
  · cases hv : getCell r2 c with
    | none => simp [step1, hw, hv]
    | some v =>
        by_cases hvz : v = 0
        · subst hvz; simp [step1, hw, hv]
        · have h1 : step1 r2 c w = some v := by simp [step1, hw, hv, hvz]
          have h2 : cellEmpty (some v) = false := by simp [cellEmpty, hvz]
          rw [h1]
          simp [step1, h2]
  · simp [step1, hw]

theorem foldl_colStep_getCell (r2 : Row) (c : String) :
    ∀ (cols : List String) (acc : Row), hasCol acc c →
      getCell (List.foldl (colStep r2) acc cols) c =
        if c ∈ cols then step1 r2 c (getCell acc c) else getCell acc c := by
  intro cols
  induction cols with
  | nil => intro acc _; simp
  | cons c' t ih =>
      intro acc hacc
      have hacc' : hasCol (colStep r2 acc c') c := (colStep_hasCol r2 acc c' c).mpr hacc
      by_cases hc : c' = c
      · subst hc
        simp only [List.foldl_cons, List.mem_cons, true_or, if_pos]
        rw [ih _ hacc', getCell_colStep_self r2 acc c' hacc]
        split
        · exact step1_idem r2 c' _
        · rfl
      · simp only [List.foldl_cons]
        rw [ih _ hacc', getCell_colStep_ne r2 acc c' c hc]
        by_cases hmem : c ∈ t
        · rw [if_pos hmem, if_pos (List.mem_cons_of_mem c' hmem)]
        · have hnc : c ∉ c' :: t := by
            intro hmm
            rcases List.mem_cons.mp hmm with h | h
            · exact hc h.symm
            · exact hmem h
          rw [if_neg hmem, if_neg hnc]

theorem foldl_colStep_keys (r2 : Row) (cols : List String) (acc : Row) :
    (List.foldl (colStep r2) acc cols).fuente = acc.fuente ∧
    (List.foldl (colStep r2) acc cols).intervalo = acc.intervalo ∧
    (List.foldl (colStep r2) acc cols).movimiento = acc.movimiento := by
  induction cols generalizing acc with
  | nil => exact ⟨rfl, rfl, rfl⟩
  | cons c t ih =>
      simp only [List.foldl_cons]
      obtain ⟨h1, h2, h3⟩ := ih (colStep r2 acc c)
      obtain ⟨g1, g2, g3⟩ := colStep_keys r2 acc c
      exact ⟨h1.trans g1, h2.trans g2, h3.trans g3⟩

theorem foldl_colStep_hasCol (r2 : Row) (cols : List String) (acc : Row) (d : String) :
    hasCol (List.foldl (colStep r2) acc cols) d ↔ hasCol acc d := by
  induction cols generalizing acc with
  | nil => exact Iff.rfl
  | cons c t ih =>
      simp only [List.foldl_cons]
      exact (ih (colStep r2 acc c)).trans (colStep_hasCol r2 acc c d)

theorem mergeRowWith_keys (cols : List String) (rows2 : List Row) (r : Row) :
    (mergeRowWith cols rows2 r).fuente = r.fuente ∧
    (mergeRowWith cols rows2 r).intervalo = r.intervalo ∧
    (mergeRowWith cols rows2 r).movimiento = r.movimiento := by
  cases hm : firstMatch rows2 r with
  | none => rw [mergeRowWith_none cols rows2 r hm]; exact ⟨rfl, rfl, rfl⟩
  | some r2 => rw [mergeRowWith_some cols rows2 r r2 hm]; exact foldl_colStep_keys r2 cols r

theorem mergeRowWith_hasCol (cols : List String) (rows2 : List Row) (r : Row) (d : String) :
    hasCol (mergeRowWith cols rows2 r) d ↔ hasCol r d := by
  cases hm : firstMatch rows2 r with
  | none => rw [mergeRowWith_none cols rows2 r hm]
  | some r2 => rw [mergeRowWith_some cols rows2 r r2 hm]; exact foldl_colStep_hasCol r2 cols r d

theorem getCell_mergeRowWith (cols : List String) (rows2 : List Row) (r : Row) (c : String)
    (hc : c ∈ cols) (h : hasCol r c) :
    getCell (mergeRowWith cols rows2 r) c = fill1 rows2 r c := by
  cases hm : firstMatch rows2 r with
  | none =>
      rw [mergeRowWith_none cols rows2 r hm]
      simp [fill1, cand, hm]
  | some r2 =>
      rw [mergeRowWith_some cols rows2 r r2 hm,
        foldl_colStep_getCell r2 c cols r h, if_pos hc]
      simp only [fill1, cand, hm, step1]
      by_cases he : cellEmpty (getCell r c)
      · simp only [if_pos he]
        cases hv : getCell r2 c with
        | none => simp
        | some v => by_cases hvz : v = 0 <;> simp [hvz]
      · simp [he]

theorem firstMatch_keys_congr (rows2 : List Row) (r r' : Row) (h1 : r.fuente = r'.fuente)
    (h2 : r.intervalo = r'.intervalo) (h3 : r.movimiento = r'.movimiento) :
    firstMatch rows2 r = firstMatch rows2 r' := by
  unfold firstMatch
  rw [h1, h2, h3]

theorem cand_keys_congr (rows2 : List Row) (r r' : Row) (c : String) (h1 : r.fuente = r'.fuente)
    (h2 : r.intervalo = r'.intervalo) (h3 : r.movimiento = r'.movimiento) :
    cand rows2 r c = cand rows2 r' c := by
  unfold cand
  rw [firstMatch_keys_congr rows2 r r' h1 h2 h3]

theorem cand_eq_none (rows2 : List Row) (r : Row) (c : String)
    (h : firstMatch rows2 r = none) : cand rows2 r c = none := by
  unfold cand
  rw [h]

theorem cand_eq_some (rows2 : List Row) (r r2 : Row) (c : String)
    (h : firstMatch rows2 r = some r2) :
    cand rows2 r c =
      match getCell r2 c with
      | some v => if v ≠ 0 then some v else none
      | none => none := by
  unfold cand
  rw [h]

theorem cand_ne_zero (rows2 : List Row) (r : Row) (c : String) (v : Int)
    (h : cand rows2 r c = some v) : v ≠ 0 := by
  cases hm : firstMatch rows2 r with
  | none => rw [cand_eq_none rows2 r c hm] at h; exact absurd h (by simp)
  | some r2 =>
      rw [cand_eq_some rows2 r r2 c hm] at h
      cases hv : getCell r2 c with
      | none => simp only [hv] at h; exact absurd h (by simp)
      | some w =>
          simp only [hv] at h
          by_cases hw : w = 0
          · rw [if_neg (by simp [hw])] at h
            exact absurd h (by simp)
          · rw [if_pos hw] at h
            injection h with h2
            exact h2 ▸ hw

theorem findSome?_cons_of_some {α β : Type} (f : α → Option β) (a : α) (l : List α) (b : β)
    (h : f a = some b) : (a :: l).findSome? f = some b := by
  rw [List.findSome?_cons, h]

theorem findSome?_cons_of_none {α β : Type} (f : α → Option β) (a : α) (l : List α)
    (h : f a = none) : (a :: l).findSome? f = l.findSome? f := by
  rw [List.findSome?_cons, h]

theorem findSome?_cand_ne_zero (cs : List (List Row)) (r : Row) (c : String) (v : Int)
    (h : cs.findSome? (fun rows2 => cand rows2 r c) = some v) : v ≠ 0 := by
  induction cs with
  | nil => simp at h
  | cons d t ih =>
      cases hc : cand d r c with
      | some w =>
          rw [findSome?_cons_of_some _ d t w hc] at h
          injection h with h2
          exact h2 ▸ cand_ne_zero d r c w hc
      | none =>
          rw [findSome?_cons_of_none _ d t hc] at h
          exact ih h

theorem applyRow_cell (cols : List String) (c : String) (hc : c ∈ cols) :
    ∀ (comps : List (List Row)) (r : Row), hasCol r c →
      getCell (applyRow cols comps r) c = fillSpec comps r c := by
  intro comps
  induction comps with
  | nil =>
      intro r _
      unfold applyRow fillSpec
      simp
  | cons d cs ih =>
      intro r h
      obtain ⟨hk1, hk2, hk3⟩ := mergeRowWith_keys cols d r
      have hcell : getCell (mergeRowWith cols d r) c = fill1 d r c :=
        getCell_mergeRowWith cols d r c hc h
      have hhas : hasCol (mergeRowWith cols d r) c := (mergeRowWith_hasCol cols d r c).mpr h
      have happ : applyRow cols (d :: cs) r = applyRow cols cs (mergeRowWith cols d r) := rfl
      rw [happ, ih _ hhas]
      have hfun : (fun rows2 => cand rows2 (mergeRowWith cols d r) c)
          = (fun rows2 => cand rows2 r c) :=
        funext fun rows2 => cand_keys_congr rows2 _ r c hk1 hk2 hk3
      unfold fillSpec
      rw [hcell, hfun]
      by_cases he : cellEmpty (getCell r c)
      · cases hcd : cand d r c with
        | some v =>
            have hv : v ≠ 0 := cand_ne_zero d r c v hcd
            have hf1 : fill1 d r c = some v := by simp [fill1, he, hcd]
            have hne : cellEmpty (some v) = false := by simp [cellEmpty, hv]
            rw [hf1, findSome?_cons_of_some _ d cs v hcd, hne]
            simp [he]
        | none =>
            have hf1 : fill1 d r c = getCell r c := by simp [fill1, he, hcd]
            rw [hf1, findSome?_cons_of_none _ d cs hcd]
      · have hf1 : fill1 d r c = getCell r c := by simp [fill1, he]
        rw [hf1]
        simp [he]

theorem mergeVehicleData_rows (base : Dataset) (comps : List Dataset) :
    (mergeVehicleData base comps).rows
      = base.rows.map (fun r =>
          applyRow base.cols (comps.map fun d => d.rows.map stripKeys) (stripKeys r)) := by
  have key : ∀ (cs : List Dataset) (rows : List Row),
      cs.foldl (fun rows d2 => rows.map (mergeRowWith base.cols (d2.rows.map stripKeys))) rows
        = rows.map (fun r => applyRow base.cols (cs.map fun d => d.rows.map stripKeys) r) := by
    intro cs
    induction cs with
    | nil =>
        intro rows
        simp [applyRow]
    | cons d t ih =>
        intro rows
        simp only [List.foldl_cons, List.map_cons]
        rw [ih, List.map_map]
        rfl
  show comps.foldl _ (base.rows.map stripKeys) = _
  rw [key comps (base.rows.map stripKeys), List.map_map]
  rfl

theorem mergeVehicleData_cell (base : Dataset) (comps : List Dataset) (i : ℕ) (c : String)
    (hc : c ∈ base.cols) (hwf : ∀ r ∈ base.rows, hasCol r c) :
    (mergeVehicleData base comps).rows[i]?.map (fun r => getCell r c)
      = base.rows[i]?.map (fun r =>
          fillSpec (comps.map fun d => d.rows.map stripKeys) (stripKeys r) c) := by
  rw [mergeVehicleData_rows, List.getElem?_map]
  cases hr : base.rows[i]? with
  | none => rfl
  | some r =>
      have hmem : r ∈ base.rows := List.getElem?_mem hr
      have hh : hasCol (stripKeys r) c := (hasCol_stripKeys r c).mpr (hwf r hmem)
      simp only [Option.map_some']
      rw [applyRow_cell base.cols c hc _ (stripKeys r) hh]

/-- C3: the Gap-Fill Merger returns a Dataset with the same row count as the
base Dataset, in which every vehicle-class cell that was null or zero in the
base is replaced by the first nonzero value found in any complementary
dataset whose row matches the base row on the exact trimmed-string key
(control_point, interval, movement); complementary datasets are applied in
list order and a cell, once filled with a nonzero value, is not revisited by
later complementary datasets (the fill value `fillSpec` scans the
complementary files in list order and takes the first present-and-nonzero
candidate, leaving the base value otherwise). -/
theorem claim_C3 (base : Dataset) (comps : List Dataset)
    (hwf : ∀ r ∈ base.rows, ∀ c ∈ base.cols, hasCol r c) :
    (mergeVehicleData base comps).rows.length = base.rows.length ∧
    ∀ i : ℕ, ∀ c ∈ base.cols,
      (mergeVehicleData base comps).rows[i]?.map (fun r => getCell r c)
        = base.rows[i]?.map (fun r =>
            fillSpec (comps.map fun d => d.rows.map stripKeys) (stripKeys r) c) := by
  constructor
  · rw [mergeVehicleData_rows]
    exact List.length_map _ _
  · intro i c hc
    exact mergeVehicleData_cell base comps i c hc (fun r hr => hwf r hr c hc)

/-- A one-row base day-file with a zero `car` cell and a nonzero `truck` cell. -/
def sampleBase : Dataset :=
  { cols := ["car", "truck"]
    rows := [{ fuente := "PC1", intervalo := "I1", movimiento := "N",
               cells := [("car", some 0), ("truck", some 7)] }] }

/-- A complementary day-file matching the base row on the key. -/
def sampleComp : Dataset :=
  { cols := ["car", "truck"]
    rows := [{ fuente := "PC1", intervalo := "I1", movimiento := "N",
               cells := [("car", some 4), ("truck", some 9)] }] }

/-- Witness for C3 at a concrete base and complementary file. -/
theorem claim_C3_witness :
    (mergeVehicleData sampleBase [sampleComp]).rows.length = sampleBase.rows.length ∧
    (mergeVehicleData sampleBase [sampleComp]).rows[0]?.map (fun r => getCell r "car")
      = sampleBase.rows[0]?.map (fun r =>
          fillSpec ([sampleComp].map fun d => d.rows.map stripKeys) (stripKeys r) "car") := by
  have h := claim_C3 sampleBase [sampleComp] (by decide)
  exact ⟨h.1, h.2 0 "car" (by decide)⟩

/-- C9: the Gap-Fill Merger never overwrites a nonzero base cell — for every
row and vehicle column, a base value that is present and nonzero before the
merge is unchanged after the merge, for every list of complementary
Datasets. -/
theorem claim_C9 (base : Dataset) (comps : List Dataset)
    (hwf : ∀ r ∈ base.rows, ∀ c ∈ base.cols, hasCol r c)
    (i : ℕ) (c : String) (hc : c ∈ base.cols) (v : Int) (hv : v ≠ 0)
    (hbase : base.rows[i]?.map (fun r => getCell r c) = some (some v)) :
    (mergeVehicleData base comps).rows[i]?.map (fun r => getCell r c) = some (some v) := by
  rw [mergeVehicleData_cell base comps i c hc (fun r hr => hwf r hr c hc)]
  cases hr : base.rows[i]? with
  | none => rw [hr] at hbase; exact absurd hbase (by simp)
  | some r =>
      rw [hr] at hbase
      simp only [Option.map_some'] at hbase ⊢
      injection hbase with hcv
      have hcell : getCell (stripKeys r) c = some v := by rw [getCell_stripKeys]; exact hcv
      have hne : cellEmpty (some v) = false := by simp [cellEmpty, hv]
      unfold fillSpec
      rw [hcell, hne]
      simp

/-- Witness for C9 at a concrete base and complementary file
(the nonzero `truck` cell of the base survives the merge). -/
theorem claim_C9_witness :
    (mergeVehicleData sampleBase [sampleComp]).rows[0]?.map (fun r => getCell r "truck")
      = some (some 7) := by
  exact claim_C9 sampleBase [sampleComp] (by decide) 0 "truck" (by decide) 7 (by decide)
    (by decide)

end MergeClComp

namespace Homologate

/-- One row of the combined table at the deduplication step of
`procesar_datos` (`homologate.py`, lines 168-200): the six identifying
columns (`PC`, `FECHA`, `HORA INICIO`, `HORA TERMINO`, `MOVIMIENTO`,
`CUARTO`) are fields, and `cells` holds the vehicle-class columns present
in the row, keyed by output-class name (integer values, as produced by the
output-category synthesis). -/
structure DRow where
  pc : String
  fecha : String
  horaInicio : String
  horaTermino : String
  movimiento : String
  cuarto : String
  cells : List (String × Int)
  deriving Repr, DecidableEq

/-- The IdentifyingKey used by `duplicated`/`groupby`
(`columnas_identificadoras`, line 169). -/
abbrev Key := String × String × String × String × String × String

def key (r : DRow) : Key :=
  (r.pc, r.fecha, r.horaInicio, r.horaTermino, r.movimiento, r.cuarto)

def findColZ : List (String × Int) → String → Option Int
  | [], _ => none
  | (k, v) :: t, c => if k = c then some v else findColZ t c

/-- `get_suma_vehiculos` (lines 82-86 of `homologate.py`): the sum of the
row's values over the output vehicle classes, skipping classes absent from
the row (`if col in row`). -/
def getSuma (vehSalida : List String) (r : DRow) : Int :=
  (vehSalida.filterMap (fun c => findColZ r.cells c)).sum

def sumZero (vehSalida : List String) (r : DRow) : Bool :=
  getSuma vehSalida r = 0

def sumPos (vehSalida : List String) (r : DRow) : Bool :=
  0 < getSuma vehSalida r

/-- Rows paired with their positional index (the DataFrame's integer index
labels after `concat(..., ignore_index=True)`). -/
def withIdx (n : ℕ) : List DRow → List (ℕ × DRow)
  | [] => []
  | r :: t => (n, r) :: withIdx (n + 1) t

/-- Number of rows sharing a key; `df.duplicated(subset=..., keep=False)`
marks a row iff this is ≥ 2. -/
def countKey (rows : List DRow) (k : Key) : ℕ :=
  (rows.filter (fun r => key r = k)).length

/-- One duplicate group: the indexed rows sharing key `k`, in original
order (the `groupby` group of `df_combined[duplicados]`). -/
def grupoIdx (rows : List DRow) (k : Key) : List (ℕ × DRow) :=
  (withIdx 0 rows).filter (fun p => key p.2 = k)

/-- The index kept for a duplicate group (lines 181-194): if the group has
both a zero-sum row and a positive-sum row, the first positive-sum row's
index (`sumas[sumas > 0].index[0]`); otherwise the last row's index
(`grupo.index[-1]`). -/
def keptIndex (vehSalida : List String) (rows : List DRow) (k : Key) : Option ℕ :=
  if ((grupoIdx rows k).any fun p => sumZero vehSalida p.2)
      && ((grupoIdx rows k).any fun p => sumPos vehSalida p.2) then
    ((grupoIdx rows k).find? (fun p => sumPos vehSalida p.2)).map Prod.fst
  else
    (grupoIdx rows k).getLast?.map Prod.fst

/-- The survival test of `mascara` (line 197): a row survives iff it is not
part of a duplicate group (`~duplicados`) or its index is the group's kept
index (`df_combined.index.isin(indices_a_mantener)`). -/
def keepPred (vehSalida : List String) (rows : List DRow) (p : ℕ × DRow) : Bool :=
  if countKey rows (key p.2) ≤ 1 then true
  else decide (keptIndex vehSalida rows (key p.2) = some p.1)

/-- The deduplication step (lines 168-200). -/
def eliminarDuplicados (vehSalida : List String) (rows : List DRow) : List DRow :=
  ((withIdx 0 rows).filter (keepPred vehSalida rows)).map Prod.snd

/-- A duplicate-group row whose vehicle sum is −1. -/
def cexRowNeg : DRow :=
  { pc := "PC1", fecha := "01-01-2025", horaInicio := "00:00:00",
    horaTermino := "00:15:00", movimiento := "1", cuarto := "0,1",
    cells := [("AUTO", -1)] }

/-- A duplicate-group row (same IdentifyingKey) whose vehicle sum is 0. -/
def cexRowZero : DRow :=
  { pc := "PC1", fecha := "01-01-2025", horaInicio := "00:00:00",
    horaTermino := "00:15:00", movimiento := "1", cuarto := "0,1",
    cells := [("AUTO", 0)] }

/-- C2 counterexample: a group of two rows sharing one IdentifyingKey whose
vehicle-count sums are [−1, 0] contains a nonzero-sum row and a zero-sum
row, so the claim says the first nonzero-sum row (sum −1) is kept; the code
tests `sumas > 0`, finds no positive sum, and keeps the last row (sum 0)
instead. -/
theorem claim_C2_counterexample :
    key cexRowNeg = key cexRowZero ∧
    getSuma ["AUTO"] cexRowNeg ≠ 0 ∧
    getSuma ["AUTO"] cexRowZero = 0 ∧
    eliminarDuplicados ["AUTO"] [cexRowNeg, cexRowZero] = [cexRowZero] := by
  decide

theorem withIdx_map_snd : ∀ (n : ℕ) (rows : List DRow),
    (withIdx n rows).map Prod.snd = rows := by
  intro n rows
  induction rows generalizing n with
  | nil => rfl
  | cons r t ih => simp [withIdx, ih]

theorem withIdx_ge : ∀ (n : ℕ) (rows : List DRow) (p : ℕ × DRow),
    p ∈ withIdx n rows → n ≤ p.1 := by
  intro n rows
  induction rows generalizing n with
  | nil => intro p h; cases h
  | cons r t ih =>
      intro p h
      rcases List.mem_cons.mp h with heq | hmem
      · subst heq; exact le_refl n
      · exact Nat.le_of_succ_le (ih (n + 1) p hmem)

theorem withIdx_pairwise : ∀ (n : ℕ) (rows : List DRow),
    (withIdx n rows).Pairwise (fun a b => a.1 < b.1) := by
  intro n rows
  induction rows generalizing n with
  | nil => exact List.Pairwise.nil
  | cons r t ih =>
      refine List.pairwise_cons.mpr ⟨?_, ih (n + 1)⟩
      intro p hp
      exact Nat.lt_of_lt_of_le (Nat.lt_succ_self n) (withIdx_ge (n + 1) t p hp)

theorem map_snd_filter (L : List (ℕ × DRow)) (q : DRow → Bool) :
    (L.filter (fun p => q p.2)).map Prod.snd = (L.map Prod.snd).filter q := by
  induction L with
  | nil => rfl
  | cons a t ih =>
      rw [List.filter_cons, List.map_cons, List.filter_cons]
      cases hq : q a.2 with
      | true => simp [hq, ih]
      | false => simp [hq, ih]

theorem any_map_snd (L : List (ℕ × DRow)) (q : DRow → Bool) :
    (L.map Prod.snd).any q = L.any (fun p => q p.2) := by
  induction L with
  | nil => rfl
  | cons a t ih => simp [ih]

theorem filter_and (L : List (ℕ × DRow)) (P Q : ℕ × DRow → Bool) :
    (L.filter P).filter Q = L.filter (fun p => P p && Q p) := by
  induction L with
  | nil => rfl
  | cons a t ih =>
      cases hP : P a <;> cases hQ : Q a <;> simp [List.filter_cons, hP, hQ, ih]

theorem find?_isSome_of_any (L : List (ℕ × DRow)) (P : ℕ × DRow → Bool)
    (h : L.any P = true) : (L.find? P).isSome := by
  induction L with
  | nil => simp at h
  | cons a t ih =>
      rw [List.find?_cons]
      cases hP : P a with
      | true => simp
      | false =>
          simp only [hP]
          exact ih (by simpa [hP] using h)

theorem filter_idx_singleton :
    ∀ (L : List (ℕ × DRow)), L.Pairwise (fun a b => a.1 < b.1) →
      ∀ (i : ℕ) (r : DRow), (i, r) ∈ L →
        L.filter (fun p => decide (i = p.1)) = [(i, r)] := by
  intro L
  induction L with
  | nil => intro _ i r h; cases h
  | cons a t ih =>
      intro hp i r hmem
      rcases List.mem_cons.mp hmem with heq | hmem'
      · have hfz : t.filter (fun p => decide (i = p.1)) = [] := by
          rw [List.filter_eq_nil_iff]
          intro p hp'
          have hlt : a.1 < p.1 := (List.pairwise_cons.mp hp).1 p hp'
          rw [← heq] at hlt
          simp only [decide_eq_true_eq]
          omega
        rw [List.filter_cons, ← heq]
        simp [hfz]
      · have hlt : a.1 < i := by
          have := (List.pairwise_cons.mp hp).1 (i, r) hmem'
          exact this
        have hne : decide (i = a.1) = false := by
          simp only [decide_eq_false_iff_not]
          omega
        rw [List.filter_cons, hne]
        simp only [Bool.false_eq_true, if_false]
        exact ih (List.pairwise_cons.mp hp).2 i r hmem'

/-- C2 amended: within a duplicate group the code keeps the first row whose
sum is strictly positive when the group has both a zero-sum and a
positive-sum row (the code tests `sumas > 0`, not "nonzero"), and the last
row of the group otherwise. -/
theorem claim_C2 (vehSalida : List String) (rows : List DRow) (k : Key)
    (h2 : 2 ≤ (rows.filter (fun r => key r = k)).length) :
    (eliminarDuplicados vehSalida rows).filter (fun r => key r = k)
      = (if ((rows.filter (fun r => key r = k)).any fun r => sumZero vehSalida r)
            && ((rows.filter (fun r => key r = k)).any fun r => sumPos vehSalida r)
         then ((rows.filter (fun r => key r = k)).find? (fun r => sumPos vehSalida r)).toList
         else (rows.filter (fun r => key r = k)).getLast?.toList) := by
  have hW : (withIdx 0 rows).map Prod.snd = rows := withIdx_map_snd 0 rows
  have hGg : (grupoIdx rows k).map Prod.snd
      = rows.filter (fun r => decide (key r = k)) := by
    have h := map_snd_filter (withIdx 0 rows) (fun r => decide (key r = k))
    rw [hW] at h
    exact h
  have hpairg : (grupoIdx rows k).Pairwise (fun a b => a.1 < b.1) :=
    (withIdx_pairwise 0 rows).filter _
  have hglen := congrArg List.length hGg
  rw [List.length_map] at hglen
  have hcnt : ¬countKey rows k ≤ 1 := by
    unfold countKey
    omega
  have hL1 := map_snd_filter ((withIdx 0 rows).filter (keepPred vehSalida rows))
    (fun r => decide (key r = k))
  have hL2 := filter_and (withIdx 0 rows) (keepPred vehSalida rows)
    (fun p => decide (key p.2 = k))
  have hmain : ∀ (i : ℕ), keptIndex vehSalida rows k = some i →
      (withIdx 0 rows).filter
          (fun p => keepPred vehSalida rows p && decide (key p.2 = k))
        = (grupoIdx rows k).filter (fun p => decide (i = p.1)) := by
    intro i hi
    unfold grupoIdx
    rw [filter_and (withIdx 0 rows) (fun p => decide (key p.2 = k))
      (fun p => decide (i = p.1))]
    apply List.filter_congr
    intro p _
    by_cases hkey : key p.2 = k
    · unfold keepPred
      rw [hkey, if_neg hcnt, hi]
      simp
    · simp [hkey]
  by_cases hcond : (((grupoIdx rows k).any fun p => sumZero vehSalida p.2)
      && ((grupoIdx rows k).any fun p => sumPos vehSalida p.2)) = true
  · -- mixed group: the first positive-sum row is kept
    obtain ⟨hz, hpos⟩ := Bool.and_eq_true_iff.mp hcond
    have hfindS := find?_isSome_of_any (grupoIdx rows k)
      (fun p => sumPos vehSalida p.2) hpos
    obtain ⟨pr, hir⟩ := Option.isSome_iff_exists.mp hfindS
    obtain ⟨i, r⟩ := pr
    have hkept : keptIndex vehSalida rows k = some i := by
      unfold keptIndex
      rw [if_pos hcond, hir]
      rfl
    have hmem : (i, r) ∈ grupoIdx rows k := List.mem_of_find?_eq_some hir
    have hsingle := filter_idx_singleton (grupoIdx rows k) hpairg i r hmem
    have hrc : (((rows.filter (fun r => decide (key r = k))).any
          fun r => sumZero vehSalida r)
        && ((rows.filter (fun r => decide (key r = k))).any
          fun r => sumPos vehSalida r)) = true := by
      rw [← hGg, any_map_snd, any_map_snd]
      exact hcond
    unfold eliminarDuplicados
    rw [← hL1, hL2, hmain i hkept, hsingle, hrc, if_pos rfl, ← hGg, List.find?_map]
    have hcomp : ((fun r => sumPos vehSalida r) ∘ Prod.snd)
        = (fun p : ℕ × DRow => sumPos vehSalida p.2) := rfl
    rw [hcomp, hir]
    rfl
  · -- uniform group: the last row is kept
    have hcondF : (((grupoIdx rows k).any fun p => sumZero vehSalida p.2)
        && ((grupoIdx rows k).any fun p => sumPos vehSalida p.2)) = false := by
      simpa using hcond
    have hneNil : grupoIdx rows k ≠ [] := by
      intro h0
      rw [h0] at hglen
      simp at hglen
      omega
    have hlastS : (grupoIdx rows k).getLast?.isSome := List.getLast?_isSome.mpr hneNil
    obtain ⟨pr, hlast⟩ := Option.isSome_iff_exists.mp hlastS
    obtain ⟨i, r⟩ := pr
    have hkept : keptIndex vehSalida rows k = some i := by
      unfold keptIndex
      rw [if_neg hcond, hlast]
      rfl
    have hmem : (i, r) ∈ grupoIdx rows k := List.mem_of_mem_getLast? hlast
    have hsingle := filter_idx_singleton (grupoIdx rows k) hpairg i r hmem
    have hrc : (((rows.filter (fun r => decide (key r = k))).any
          fun r => sumZero vehSalida r)
        && ((rows.filter (fun r => decide (key r = k))).any
          fun r => sumPos vehSalida r)) = false := by
      rw [← hGg, any_map_snd, any_map_snd]
      exact hcondF
    unfold eliminarDuplicados
    rw [← hL1, hL2, hmain i hkept, hsingle, hrc, if_neg (by simp), ← hGg,
      List.getLast?_map, hlast]
    rfl

/-- Three rows of one IdentifyingKey whose sums are [0, 0, 5]. -/
def cexRows3 : List DRow :=
  [{ pc := "PC1", fecha := "01-01-2025", horaInicio := "00:00:00",
     horaTermino := "00:15:00", movimiento := "1", cuarto := "0,1",
     cells := [("AUTO", 0)] },
   { pc := "PC1", fecha := "01-01-2025", horaInicio := "00:00:00",
     horaTermino := "00:15:00", movimiento := "1", cuarto := "0,1",
     cells := [("AUTO", 0)] },
   { pc := "PC1", fecha := "01-01-2025", horaInicio := "00:00:00",
     horaTermino := "00:15:00", movimiento := "1", cuarto := "0,1",
     cells := [("AUTO", 5)] }]

/-- Witness for the amended C2 at the spec's own example: sums [0, 0, 5]
keep the sum-5 row. -/
theorem claim_C2_witness :
    (eliminarDuplicados ["AUTO"] cexRows3).filter
        (fun r => key r = ("PC1", "01-01-2025", "00:00:00", "00:15:00", "1", "0,1"))
      = (if ((cexRows3.filter (fun r => key r =
              ("PC1", "01-01-2025", "00:00:00", "00:15:00", "1", "0,1"))).any
              fun r => sumZero ["AUTO"] r)
            && ((cexRows3.filter (fun r => key r =
              ("PC1", "01-01-2025", "00:00:00", "00:15:00", "1", "0,1"))).any
              fun r => sumPos ["AUTO"] r)
         then ((cexRows3.filter (fun r => key r =
              ("PC1", "01-01-2025", "00:00:00", "00:15:00", "1", "0,1"))).find?
              (fun r => sumPos ["AUTO"] r)).toList
         else (cexRows3.filter (fun r => key r =
              ("PC1", "01-01-2025", "00:00:00", "00:15:00", "1", "0,1"))).getLast?.toList) :=
  claim_C2 ["AUTO"] cexRows3 ("PC1", "01-01-2025", "00:00:00", "00:15:00", "1", "0,1")
    (by decide)

/-- A column of the combined table (pandas is column-oriented): its name
and its per-row values (`none` = NaN). -/
structure Col where
  name : String
  vals : List (Option Int)
  deriving Repr, DecidableEq

/-- The combined table at the output-category synthesis step
(`homologate.py`, lines 110-137): a fixed row count and a list of columns. -/
structure HDf where
  nRows : ℕ
  cols : List Col
  deriving Repr, DecidableEq

def findColVals : List Col → String → Option (List (Option Int))
  | [], _ => none
  | col :: t, c => if col.name = c then some col.vals else findColVals t c

def getColVals (df : HDf) (c : String) : Option (List (Option Int)) :=
  findColVals df.cols c

/-- `df[c] = vals`: replace the column when present, else append it. -/
def setCol (df : HDf) (c : String) (vs : List (Option Int)) : HDf :=
  if df.cols.any (fun col => col.name = c) then
    { df with cols := df.cols.map (fun col =>
        if col.name = c then { name := col.name, vals := vs } else col) }
  else
    { df with cols := df.cols ++ [{ name := c, vals := vs }] }

/-- ASCII lower-casing of one character. -/
def charToLower (c : Char) : Char :=
  if 'A' ≤ c ∧ c ≤ 'Z' then Char.ofNat (c.toNat + 32) else c

/-- `normalizar_texto` (lines 17-27 of `homologate.py`): lower-case and
strip surrounding spaces; the NFD-based diacritic removal is not modelled
(the column names in scope are plain ASCII). -/
def normalizarTexto (s : String) : String :=
  String.mk
    ((((s.data.map charToLower).dropWhile (fun c => c = ' ')).reverse.dropWhile
        (fun c => c = ' ')).reverse)

/-- `dict(zip(entrada, salida))` lookup: the value of the LAST pair with
the given key (later duplicate keys overwrite earlier ones). -/
def lookupLast : List (String × String) → String → Option String
  | [], _ => none
  | (a, b) :: t, k =>
      match lookupLast t k with
      | some v => some v
      | none => if a = k then some b else none

/-- First-occurrence deduplication (`dict.fromkeys` order). -/
def dedupFirstAux : List String → List String → List String
  | [], _ => []
  | a :: t, seen =>
      if a ∈ seen then dedupFirstAux t seen else a :: dedupFirstAux t (a :: seen)

def dedupFirst (l : List String) : List String := dedupFirstAux l []

/-- Keys of the vehicle map in first-insertion order (Python dict). -/
def dictKeys (m : List (String × String)) : List String := dedupFirst (m.map Prod.fst)

/-- `mapeo_vehiculos.values()`: key-insertion order, each key's
last-assigned value. -/
def dictValues (m : List (String × String)) : List String :=
  (dictKeys m).filterMap (lookupLast m)

/-- `vehiculos_salida = list(dict.fromkeys(mapeo_vehiculos.values()))`
(line 116): the output classes in first-seen order. -/
def vehiculosSalida (m : List (String × String)) : List String :=
  dedupFirst (dictValues m)

def colNames (df : HDf) : List String := df.cols.map Col.name

/-- `columnas_vehiculos` (lines 110-111): the columns of the combined
table whose canonicalized name is a key of the vehicle map. -/
def columnasVehiculos (df : HDf) (m : List (String × String)) : List String :=
  (colNames df).filter (fun c => (lookupLast m (normalizarTexto c)).isSome)

/-- `columnas_entrada` for one output class (lines 122-123). -/
def entradaCols (m : List (String × String)) (df : HDf) (out : String) : List String :=
  (columnasVehiculos df m).filter (fun c => lookupLast m (normalizarTexto c) = some out)

/-- One cell as read through `df_combined[col]`; a missing column and NaN
both behave as absent. -/
def colVal (df : HDf) (c : String) (i : ℕ) : Option Int :=
  match getColVals df c with
  | none => none
  | some vs =>
      match vs[i]? with
      | none => none
      | some v => v

/-- `df_combined[columnas_entrada].fillna(0).sum(axis=1)` (line 133). -/
def sumCols (df : HDf) (entrada : List String) : List (Option Int) :=
  (List.range df.nRows).map (fun i =>
    some (entrada.foldl (fun s c => s + ((colVal df c i).getD 0)) 0))

/-- One iteration of the output-category synthesis loop (lines 121-137):
when the output class has contributing input columns, assign it the
row-wise sum of those columns, reading the current state of the table; a
class with no contributors is skipped (no column is created).
`columnas_entrada` is computed from the original table's column list. -/
def synthStep (m : List (String × String)) (df : HDf) (cur : HDf) (out : String) : HDf :=
  if (entradaCols m df out).isEmpty then cur
  else setCol cur out (sumCols cur (entradaCols m df out))

/-- The output-category synthesis loop over `vehiculos_salida` in order. -/
def crearColumnasVehiculos (m : List (String × String)) (df : HDf) : HDf :=
  (vehiculosSalida m).foldl (synthStep m df) df

/-- Column selection (`df_combined[columnas_BBDD]`): all the requested
columns, or `none` when any is missing (`KeyError`, caught at line 221 so
that `procesar_datos` returns no result). -/
def colsSeleccion (df : HDf) : List String → Option (List (List (Option Int)))
  | [] => some []
  | o :: t =>
      match getColVals df o with
      | none => none
      | some vs =>
          match colsSeleccion df t with
          | none => none
          | some rest => some (vs :: rest)

/-- The vehicle-column part of `procesar_datos`: output-category synthesis
followed by the final column selection restricted to the output vehicle
classes (the identifier columns are created unconditionally earlier in
`procesar_datos` and never missing). -/
def sintetizarYSeleccionar (m : List (String × String)) (df : HDf) :
    Option (List (List (Option Int))) :=
  colsSeleccion (crearColumnasVehiculos m df) (vehiculosSalida m)

/-- A vehicle map sending input class `car` to output class `AUTO` and
input class `bus` to output class `BUS`. -/
def cexMapeo : List (String × String) := [("car", "AUTO"), ("bus", "BUS")]

/-- A combined table that has a `car` column but no `bus` column, so the
output class `BUS` has no contributing input columns. -/
def cexDf : HDf := { nRows := 2, cols := [{ name := "car", vals := [some 1, some 2] }] }

/-- C5 counterexample: output class `BUS` has no contributing input
columns; the claim says its output column is 0 for all rows, but the code
never creates the column and the final column selection fails
(`procesar_datos` produces no output at all). -/
theorem claim_C5_counterexample :
    "BUS" ∈ vehiculosSalida cexMapeo ∧
    entradaCols cexMapeo cexDf "BUS" = [] ∧
    sintetizarYSeleccionar cexMapeo cexDf = none := by
  decide

theorem findColVals_map_update (cols : List Col) (c : String) (vs : List (Option Int)) :
    findColVals (cols.map (fun col =>
        if col.name = c then { name := col.name, vals := vs } else col)) c
      = (findColVals cols c).map (fun _ => vs) := by
  induction cols with
  | nil => rfl
  | cons col t ih =>
      by_cases h : col.name = c
      · simp [findColVals, h]
      · simp [findColVals, h, ih]

theorem findColVals_map_update_ne (cols : List Col) (c : String) (vs : List (Option Int))
    (d : String) (h : d ≠ c) :
    findColVals (cols.map (fun col =>
        if col.name = c then { name := col.name, vals := vs } else col)) d
      = findColVals cols d := by
  induction cols with
  | nil => rfl
  | cons col t ih =>
      by_cases hc : col.name = c
      · have hnd : ¬col.name = d := by rw [hc]; exact fun hh => h hh.symm
        have hcd : ¬c = d := fun hh => h hh.symm
        simp [findColVals, hc, hnd, hcd, ih]
      · by_cases hd : col.name = d <;> simp [findColVals, hc, hd, ih, h]

theorem any_name_isSome (cols : List Col) (c : String) :
    cols.any (fun col => col.name = c) = true ↔ (findColVals cols c).isSome := by
  induction cols with
  | nil => simp [findColVals]
  | cons col t ih => by_cases h : col.name = c <;> simp [findColVals, h, ih]

theorem findColVals_append (cols1 cols2 : List Col) (c : String) :
    findColVals (cols1 ++ cols2) c
      = match findColVals cols1 c with
        | some vs => some vs
        | none => findColVals cols2 c := by
  induction cols1 with
  | nil => rfl
  | cons col t ih => by_cases h : col.name = c <;> simp [findColVals, h, ih]

theorem getColVals_setCol_self (df : HDf) (c : String) (vs : List (Option Int)) :
    getColVals (setCol df c vs) c = some vs := by
  unfold getColVals setCol
  by_cases h : df.cols.any (fun col => col.name = c) = true
  · rw [if_pos h]
    show findColVals (df.cols.map _) c = some vs
    rw [findColVals_map_update]
    cases hf : findColVals df.cols c with
    | none =>
        have := (any_name_isSome df.cols c).mp h
        rw [hf] at this
        simp at this
    | some _ => rfl
  · rw [if_neg h]
    show findColVals (df.cols ++ [{ name := c, vals := vs }]) c = some vs
    rw [findColVals_append]
    have hnone : findColVals df.cols c = none := by
      cases hf : findColVals df.cols c with
      | none => rfl
      | some w => exact absurd ((any_name_isSome df.cols c).mpr (by simp [hf])) h
    rw [hnone]
    simp [findColVals]

theorem getColVals_setCol_ne (df : HDf) (c : String) (vs : List (Option Int)) (d : String)
    (h : d ≠ c) : getColVals (setCol df c vs) d = getColVals df d := by
  unfold getColVals setCol
  by_cases hany : df.cols.any (fun col => col.name = c) = true
  · rw [if_pos hany]
    show findColVals (df.cols.map _) d = findColVals df.cols d
    exact findColVals_map_update_ne df.cols c vs d h
  · rw [if_neg hany]
    show findColVals (df.cols ++ [{ name := c, vals := vs }]) d = findColVals df.cols d
    rw [findColVals_append]
    cases hf : findColVals df.cols d with
    | some vs2 => rfl
    | none =>
        have hcd : ¬({ name := c, vals := vs } : Col).name = d := fun hh => h hh.symm
        simp [findColVals, hcd]

theorem setCol_nRows (df : HDf) (c : String) (vs : List (Option Int)) :
    (setCol df c vs).nRows = df.nRows := by
  unfold setCol
  split <;> rfl

theorem colVal_congr (df df' : HDf) (c : String)
    (h : getColVals df' c = getColVals df c) (i : ℕ) :
    colVal df' c i = colVal df c i := by
  unfold colVal
  rw [h]

theorem sumCols_congr (df df' : HDf) (entrada : List String)
    (hn : df'.nRows = df.nRows)
    (h : ∀ c ∈ entrada, getColVals df' c = getColVals df c) :
    sumCols df' entrada = sumCols df entrada := by
  unfold sumCols
  rw [hn]
  apply List.map_congr_left
  intro i _
  congr 1
  have key : ∀ (l : List String) (s : Int), (∀ c ∈ l, getColVals df' c = getColVals df c) →
      l.foldl (fun s c => s + ((colVal df' c i).getD 0)) s
        = l.foldl (fun s c => s + ((colVal df c i).getD 0)) s := by
    intro l
    induction l with
    | nil => intro s _; rfl
    | cons a t ih =>
        intro s hl
        simp only [List.foldl_cons]
        rw [colVal_congr df df' a (hl a (by simp)) i]
        exact ih _ (fun c hc => hl c (List.mem_cons_of_mem a hc))
  exact key entrada 0 h

theorem foldl_synthStep_preserve (m : List (String × String)) (df : HDf) :
    ∀ (outs : List String) (cur : HDf) (d : String),
      (∀ o ∈ outs, o ≠ d ∨ (entradaCols m df o).isEmpty) →
      getColVals (outs.foldl (synthStep m df) cur) d = getColVals cur d := by
  intro outs
  induction outs with
  | nil => intro cur d _; rfl
  | cons o t ih =>
      intro cur d h
      simp only [List.foldl_cons]
      rw [ih _ d (fun o' ho' => h o' (List.mem_cons_of_mem o ho'))]
      unfold synthStep
      rcases h o (by simp) with hne | hemp
      · by_cases he : (entradaCols m df o).isEmpty
        · rw [if_pos he]
        · rw [if_neg he]
          exact getColVals_setCol_ne cur o _ d (Ne.symm hne)
      · rw [if_pos hemp]

theorem foldl_synthStep_nRows (m : List (String × String)) (df : HDf) :
    ∀ (outs : List String) (cur : HDf),
      (outs.foldl (synthStep m df) cur).nRows = cur.nRows := by
  intro outs
  induction outs with
  | nil => intro cur; rfl
  | cons o t ih =>
      intro cur
      simp only [List.foldl_cons]
      rw [ih]
      unfold synthStep
      split
      · rfl
      · rw [setCol_nRows]

theorem foldl_synth_sets (m : List (String × String)) (df : HDf) :
    ∀ (outs : List String) (cur : HDf),
      outs.Nodup →
      (∀ o ∈ outs, o ∉ columnasVehiculos df m) →
      cur.nRows = df.nRows →
      (∀ c ∈ columnasVehiculos df m, getColVals cur c = getColVals df c) →
      ∀ out ∈ outs, ¬(entradaCols m df out).isEmpty →
        getColVals (outs.foldl (synthStep m df) cur) out
          = some (sumCols df (entradaCols m df out)) := by
  intro outs
  induction outs with
  | nil => intro cur _ _ _ _ out hmem; exact absurd hmem (by simp)
  | cons o t ih =>
      intro cur hnd hdisj hn hinv out hmem hne
      simp only [List.foldl_cons]
      rcases List.mem_cons.mp hmem with heq | hmem'
      · subst heq
        have hstep : getColVals (synthStep m df cur out) out
            = some (sumCols cur (entradaCols m df out)) := by
          unfold synthStep
          rw [if_neg hne, getColVals_setCol_self]
        have hsum : sumCols cur (entradaCols m df out) = sumCols df (entradaCols m df out) := by
          apply sumCols_congr df cur _ hn
          intro c hc
          exact hinv c (List.mem_of_mem_filter hc)
        have hpres : getColVals (t.foldl (synthStep m df) (synthStep m df cur out)) out
            = getColVals (synthStep m df cur out) out := by
          apply foldl_synthStep_preserve
          intro o' ho'
          left
          exact fun hcontra => (List.nodup_cons.mp hnd).1 (hcontra ▸ ho')
        rw [hpres, hstep, hsum]
      · have hn' : (synthStep m df cur o).nRows = df.nRows := by
          unfold synthStep
          split
          · exact hn
          · rw [setCol_nRows]; exact hn
        have hinv' : ∀ c ∈ columnasVehiculos df m,
            getColVals (synthStep m df cur o) c = getColVals df c := by
          intro c hc
          unfold synthStep
          split
          · exact hinv c hc
          · rw [getColVals_setCol_ne]
            · exact hinv c hc
            · intro hco
              exact hdisj o (by simp) (hco ▸ hc)
        exact ih (synthStep m df cur o) (List.nodup_cons.mp hnd).2
          (fun o' ho' => hdisj o' (List.mem_cons_of_mem o ho')) hn' hinv' out hmem' hne

theorem findColVals_eq_none (cols : List Col) (c : String)
    (h : c ∉ cols.map Col.name) : findColVals cols c = none := by
  induction cols with
  | nil => rfl
  | cons col t ih =>
      have h1 : ¬col.name = c := by
        intro hh
        exact h (by simp [hh])
      have h2 : c ∉ t.map Col.name := fun hh => h (by simp [hh])
      simp [findColVals, h1, ih h2]

theorem colsSeleccion_none (df : HDf) :
    ∀ (outs : List String) (o : String), o ∈ outs → getColVals df o = none →
      colsSeleccion df outs = none := by
  intro outs
  induction outs with
  | nil => intro o hmem; exact absurd hmem (by simp)
  | cons a t ih =>
      intro o hmem hnone
      rcases List.mem_cons.mp hmem with heq | hmem'
      · subst heq
        simp [colsSeleccion, hnone]
      · unfold colsSeleccion
        rw [ih o hmem' hnone]
        cases getColVals df a <;> rfl

theorem dedupFirstAux_cons_mem (b : String) (t seen : List String) (hb : b ∈ seen) :
    dedupFirstAux (b :: t) seen = dedupFirstAux t seen := by
  simp only [dedupFirstAux]
  rw [if_pos hb]

theorem dedupFirstAux_cons_not_mem (b : String) (t seen : List String) (hb : b ∉ seen) :
    dedupFirstAux (b :: t) seen = b :: dedupFirstAux t (b :: seen) := by
  simp only [dedupFirstAux]
  rw [if_neg hb]

theorem dedupFirstAux_not_seen :
    ∀ (l seen : List String) (a : String), a ∈ dedupFirstAux l seen → a ∉ seen := by
  intro l
  induction l with
  | nil => intro seen a h; exact absurd h (by simp [dedupFirstAux])
  | cons b t ih =>
      intro seen a h
      by_cases hb : b ∈ seen
      · rw [dedupFirstAux_cons_mem b t seen hb] at h
        exact ih seen a h
      · rw [dedupFirstAux_cons_not_mem b t seen hb] at h
        rcases List.mem_cons.mp h with heq | hmem
        · subst heq; exact hb
        · have := ih (b :: seen) a hmem
          exact fun ha => this (List.mem_cons_of_mem b ha)

theorem dedupFirstAux_nodup : ∀ (l seen : List String), (dedupFirstAux l seen).Nodup := by
  intro l
  induction l with
  | nil => intro seen; exact List.Pairwise.nil
  | cons b t ih =>
      intro seen
      by_cases hb : b ∈ seen
      · rw [dedupFirstAux_cons_mem b t seen hb]
        exact ih seen
      · rw [dedupFirstAux_cons_not_mem b t seen hb]
        refine List.nodup_cons.mpr ⟨?_, ih (b :: seen)⟩
        intro hmem
        exact dedupFirstAux_not_seen t (b :: seen) b hmem (by simp)

theorem vehiculosSalida_nodup (m : List (String × String)) :
    (vehiculosSalida m).Nodup :=
  dedupFirstAux_nodup _ _

/-- C5 amended: for every output vehicle class that has at least one
contributing input column, and provided no output-class name collides with
an input vehicle column (no aliasing), the synthesized output column equals
the row-wise sum of the contributing input columns of the original table
with missing values as 0; an output class with NO contributing columns is
never created, and if it is not already a column of the table the final
column selection fails and the Homologator produces no output (instead of
a zero column). -/
theorem claim_C5 (m : List (String × String)) (df : HDf)
    (hdisj : ∀ o ∈ vehiculosSalida m, o ∉ columnasVehiculos df m) :
    (∀ out ∈ vehiculosSalida m, ¬(entradaCols m df out).isEmpty →
       getColVals (crearColumnasVehiculos m df) out
         = some (sumCols df (entradaCols m df out))) ∧
    (∀ out ∈ vehiculosSalida m, (entradaCols m df out).isEmpty →
       out ∉ colNames df →
       sintetizarYSeleccionar m df = none) := by
  constructor
  · intro out hmem hne
    unfold crearColumnasVehiculos
    exact foldl_synth_sets m df (vehiculosSalida m) df (vehiculosSalida_nodup m) hdisj rfl
      (fun c _ => rfl) out hmem hne
  · intro out hmem hemp hnotin
    have hget : getColVals (crearColumnasVehiculos m df) out = getColVals df out := by
      unfold crearColumnasVehiculos
      apply foldl_synthStep_preserve
      intro o ho
      by_cases h : o = out
      · right; rw [h]; exact hemp
      · left; exact h
    have hnone : getColVals df out = none := findColVals_eq_none df.cols out hnotin
    unfold sintetizarYSeleccionar
    exact colsSeleccion_none _ (vehiculosSalida m) out hmem (hget.trans hnone)

/-- A one-class vehicle map whose single output class has a contributor. -/
def witMapeo : List (String × String) := [("car", "AUTO")]

/-- Witness for the amended C5: with map `car → AUTO` over the two-row
table with a `car` column, the synthesized `AUTO` column is the row-wise
sum of the `car` column. -/
theorem claim_C5_witness :
    getColVals (crearColumnasVehiculos witMapeo cexDf) "AUTO"
      = some (sumCols cexDf (entradaCols witMapeo cexDf "AUTO")) :=
  (claim_C5 witMapeo cexDf (by decide)).1 "AUTO" (by decide) (by decide)

end Homologate

namespace MergeClPh

/-- Drop the leading and trailing spaces of a character list
(Python `str.strip`; only the space character occurs in the data in
scope). -/
def trimChars (l : List Char) : List Char :=
  ((l.dropWhile (fun c => c = ' ')).reverse.dropWhile (fun c => c = ' ')).reverse

def trimStr (s : String) : String := String.mk (trimChars s.data)

/-- `normalizar_valor_pc` (lines 74-85 of `merge_cl_ph.py`): strip, keep
everything before the first hyphen (`split('-', 1)[0]`), strip again. -/
def normalizarValorPC (s : String) : String :=
  trimStr (String.mk ((trimStr s).data.takeWhile (fun c => c ≠ '-')))

/-- A family-A (Chile) record after the column normalization of
`merge_archivos_dia` (lines 93-117): the three join-key columns as fields,
the remaining vehicle-class columns in `cells` (`none` = NaN).  The
metadata columns, which the merge carries through untouched, are elided;
the family-A sheet has no `tricycle` column of its own. -/
structure CRow where
  fuente : String
  intervalo : String
  movimiento : String
  cells : List (String × Option Int)
  deriving Repr, DecidableEq

/-- A family-B (Filipinas) record: the three join-key columns and the
tricycle count. -/
structure FRow where
  fuente : String
  intervalo : String
  movimiento : String
  tricycle : Option Int
  deriving Repr, DecidableEq

/-- A merged record: the family-A columns plus the joined TRICYCLE value. -/
structure MRow where
  fuente : String
  intervalo : String
  movimiento : String
  cells : List (String × Option Int)
  tricycle : Option Int
  deriving Repr, DecidableEq

/-- Key-value normalization applied to both inputs before the merge
(lines 113-117): `normalizar_valor_pc` on the control point, `str.strip`
on interval and movement. -/
def normCRow (r : CRow) : CRow :=
  { r with fuente := normalizarValorPC r.fuente, intervalo := trimStr r.intervalo,
           movimiento := trimStr r.movimiento }

def normFRow (r : FRow) : FRow :=
  { r with fuente := normalizarValorPC r.fuente, intervalo := trimStr r.intervalo,
           movimiento := trimStr r.movimiento }

/-- The family-B rows matching one join key. -/
def matchesFor (fil : List FRow) (f i m : String) : List FRow :=
  fil.filter (fun x => x.fuente = f ∧ x.intervalo = i ∧ x.movimiento = m)

/-- One family-A row's contribution to `pd.merge(..., how='left')`: one
output row per matching family-B row, or a single row with a missing
TRICYCLE when there is no match. -/
def joinRow (fil : List FRow) (a : CRow) : List MRow :=
  match matchesFor fil a.fuente a.intervalo a.movimiento with
  | [] => [{ fuente := a.fuente, intervalo := a.intervalo, movimiento := a.movimiento,
             cells := a.cells, tricycle := none }]
  | ms => ms.map (fun x => { fuente := a.fuente, intervalo := a.intervalo,
                             movimiento := a.movimiento, cells := a.cells,
                             tricycle := x.tricycle })

def leftJoin (chile : List CRow) (fil : List FRow) : List MRow :=
  (chile.map (joinRow fil)).flatten

/-- `df_merged['tricycle'] = pd.to_numeric(...).fillna(0)` (line 142). -/
def fillTricycle (rows : List MRow) : List MRow :=
  rows.map (fun r => { r with tricycle := some (r.tricycle.getD 0) })

/-- `merge_archivos_dia`, data path (lines 87-152 of `merge_cl_ph.py`):
normalize the key values in both inputs, left-join family B's tricycle
column onto family A on (control point, interval, movement), and replace
missing TRICYCLE values by 0.  The result is what the function writes as
the day's completed file; the gap-repair routine
`interpolar_datos_tricycle` is never invoked on this path. -/
def mergeArchivosDia (chile : List CRow) (fil : List FRow) : List MRow :=
  fillTricycle (leftJoin (chile.map normCRow) (fil.map normFRow))

/-- The no-family-B branch of `main` (lines 215-228): the family-A table
is written with a TRICYCLE column equal to 0 for all rows. -/
def procesarSoloChile (chile : List CRow) : List MRow :=
  chile.map (fun r => { fuente := r.fuente, intervalo := r.intervalo,
                        movimiento := r.movimiento, cells := r.cells,
                        tricycle := some 0 })

/-- Lexicographic comparison of character lists (Python compares strings
by code point). -/
def charListLe : List Char → List Char → Bool
  | [], _ => true
  | _ :: _, [] => false
  | a :: s, b :: t => if a < b then true else if b < a then false else charListLe s t

def strLe (a b : String) : Bool := charListLe a.data b.data

/-- Stable insertion into a sorted list: the new element goes after every
element that compares ≤ to it. -/
def insertSorted {α : Type} (le : α → α → Bool) (a : α) : List α → List α
  | [] => [a]
  | b :: t => if le b a then b :: insertSorted le a t else a :: b :: t

/-- Insertion sort; stable (`sort_values` order for the distinct sort keys
in scope). -/
def sortBy {α : Type} (le : α → α → Bool) (l : List α) : List α :=
  l.foldl (fun acc a => insertSorted le a acc) []

def dedupKeepAux {α : Type} [DecidableEq α] : List α → List α → List α
  | [], _ => []
  | a :: t, seen =>
      if a ∈ seen then dedupKeepAux t seen else a :: dedupKeepAux t (a :: seen)

/-- First-occurrence deduplication (`drop_duplicates` keeps the first of
each set of identical rows; also the order of first appearance of group
keys). -/
def dedupKeep {α : Type} [DecidableEq α] (l : List α) : List α := dedupKeepAux l []

def withIdxG {α : Type} (n : ℕ) : List α → List (ℕ × α)
  | [] => []
  | a :: t => (n, a) :: withIdxG (n + 1) t

/-- An exact rational value `num / den` (`den > 0` by construction): the
value of one interpolated cell before rounding.  The source computes these
in binary floating point; the embedding computes them exactly. -/
structure Frac where
  num : Int
  den : Int
  deriving Repr, DecidableEq

def fracOfInt (z : Int) : Frac := { num := z, den := 1 }

/-- `round` of numpy/pandas on an exact rational: round half to even (the
float representation error of the source at exact tie points is not
modelled). -/
def roundHalfEvenFrac (x : Frac) : Int :=
  if 2 * (x.num - x.den * (x.num.fdiv x.den)) < x.den then x.num.fdiv x.den
  else if x.den < 2 * (x.num - x.den * (x.num.fdiv x.den)) then x.num.fdiv x.den + 1
  else if (x.num.fdiv x.den) % 2 = 0 then x.num.fdiv x.den else x.num.fdiv x.den + 1

/-- Value of `Series.interpolate(method='linear', limit_direction='both')`
(followed by the redundant `ffill`/`bfill`) at position `i`, given the
list `ks` of (position, value) of the known entries in ascending position
order: interior gaps are linearly interpolated on positions
(`a + (b - a) * (i - jp) / (j - jp)`), positions before the first known
entry take its value, positions after the last take its value, and an
all-missing column stays missing. -/
def valueAt (ks : List (ℕ × Int)) (i : ℕ) : Option Frac :=
  match ks.find? (fun p => decide (i ≤ p.1)) with
  | none => ks.getLast?.map (fun p => fracOfInt p.2)
  | some (j, b) =>
      match (ks.filter (fun p => decide (p.1 < i))).getLast? with
      | none => some (fracOfInt b)
      | some (jp, a) =>
          if j = i then some (fracOfInt b)
          else some { num := a * ((j : Int) - (jp : Int)) + (b - a) * ((i : Int) - (jp : Int))
                      den := (j : Int) - (jp : Int) }

def interpolateColumn (l : List (Option Int)) : List (Option Frac) :=
  (List.range l.length).map
    (valueAt ((withIdxG 0 l).filterMap (fun p => p.2.map (fun v => (p.1, v)))))

def getCellM (r : MRow) (c : String) : Option Int :=
  match MergeClComp.findCol r.cells c with
  | none => none
  | some v => v

/-- A merged day table: `cols` lists the vehicle columns other than
TRICYCLE. -/
structure MDf where
  cols : List String
  rows : List MRow
  deriving Repr, DecidableEq

def intervaloLe (a b : MRow) : Bool := strLe a.intervalo b.intervalo

def flattenOpt : Option (Option Int) → Option Int
  | none => none
  | some v => v

/-- `.clip(lower=0)`. -/
def clip0 (z : Int) : Int := if z < 0 then 0 else z

/-- `.round().clip(lower=0).astype('Int64')` on one cell. -/
def finishCell (v : Option Frac) : Option Int := v.map (fun x => clip0 (roundHalfEvenFrac x))

/-- One (control point, movement) group of `interpolar_datos_tricycle`:
sort by interval, interpolate each non-TRICYCLE vehicle column, zero-fill
TRICYCLE, round and clip everything at 0. -/
def procesarGrupo (cols : List String) (grupo : List MRow) : List MRow :=
  let sorted := sortBy intervaloLe grupo
  let interpCol : String → List (Option Int) := fun c =>
    (interpolateColumn (sorted.map (fun r => getCellM r c))).map finishCell
  let tric : List (Option Int) := sorted.map (fun r => some (clip0 (r.tricycle.getD 0)))
  (withIdxG 0 sorted).map (fun p =>
    { p.2 with
      cells := cols.map (fun c => (c, flattenOpt ((interpCol c)[p.1]?)))
      tricycle := flattenOpt (tric[p.1]?) })

def keyLe (a b : String × String) : Bool :=
  if a.1 = b.1 then strLe a.2 b.2 else strLe a.1 b.1

/-- `interpolar_datos_tricycle` (lines 34-72 of `merge_cl_ph.py`): group
by (control point, movement) — pandas `groupby` sorts the group keys —
sort each group by interval, linearly interpolate every vehicle column
except TRICYCLE (then edge-fill), zero-fill TRICYCLE instead, round to
integer, clip at 0, and finally drop fully identical duplicate rows. -/
def interpolarDatosTricycle (df : MDf) : MDf :=
  let keys := sortBy keyLe (dedupKeep (df.rows.map (fun r => (r.fuente, r.movimiento))))
  let newRows := (keys.map (fun k => procesarGrupo df.cols
      (df.rows.filter (fun r => r.fuente = k.1 ∧ r.movimiento = k.2)))).flatten
  { df with rows := dedupKeep newRows }

/-- A three-row family-A day with a missing `car` value in its middle
interval. -/
def cexChile : List CRow :=
  [{ fuente := "PC1", intervalo := "01/01/2025 00:00:00 - 01/01/2025 00:15:00",
     movimiento := "1", cells := [("car", some 2)] },
   { fuente := "PC1", intervalo := "01/01/2025 00:15:00 - 01/01/2025 00:30:00",
     movimiento := "1", cells := [("car", none)] },
   { fuente := "PC1", intervalo := "01/01/2025 00:30:00 - 01/01/2025 00:45:00",
     movimiento := "1", cells := [("car", some 6)] }]

/-- A family-B day matching only the first interval. -/
def cexFil : List FRow :=
  [{ fuente := "PC1", intervalo := "01/01/2025 00:00:00 - 01/01/2025 00:15:00",
     movimiento := "1", tricycle := some 3 }]

/-- C1 counterexample: the Dataset written by `merge_archivos_dia` still
has the missing `car` value (row 1), whereas the post-join gap repair the
claim describes would have filled it by linear interpolation (to 4, as
applying the repair routine to the very same Dataset shows): the repair is
defined in the module but never invoked, so the written Dataset does not
have it applied. -/
theorem claim_C1_counterexample :
    ((mergeArchivosDia cexChile cexFil)[1]?).map (fun r => getCellM r "car")
        = some none ∧
    (((interpolarDatosTricycle
          { cols := ["car"], rows := mergeArchivosDia cexChile cexFil }).rows)[1]?).map
        (fun r => getCellM r "car") = some (some 4) := by
  decide

theorem joinRow_fields (fil : List FRow) (a : CRow) (r0 : MRow)
    (h : r0 ∈ joinRow fil a) :
    r0.fuente = a.fuente ∧ r0.intervalo = a.intervalo ∧ r0.movimiento = a.movimiento ∧
      r0.cells = a.cells := by
  unfold joinRow at h
  cases hm : matchesFor fil a.fuente a.intervalo a.movimiento with
  | nil =>
      simp only [hm] at h
      simp at h
      subst h
      exact ⟨rfl, rfl, rfl, rfl⟩
  | cons x ms =>
      simp only [hm] at h
      obtain ⟨y, _, hEq⟩ := List.mem_map.mp h
      subst hEq
      exact ⟨rfl, rfl, rfl, rfl⟩

theorem joinRow_tricycle_noMatch (fil : List FRow) (a : CRow) (r0 : MRow)
    (h : r0 ∈ joinRow fil a)
    (hm : matchesFor fil a.fuente a.intervalo a.movimiento = []) : r0.tricycle = none := by
  unfold joinRow at h
  simp only [hm] at h
  simp at h
  subst h
  rfl

/-- C8: in the Cross-Source Merger's output, every row whose join key has
no matching family-B row has TRICYCLE equal to 0 and never missing; and
when family B is absent entirely for a day, the TRICYCLE column is added
with 0 for all rows. -/
theorem claim_C8 (chile : List CRow) (fil : List FRow) :
    (∀ r ∈ mergeArchivosDia chile fil,
        matchesFor (fil.map normFRow) r.fuente r.intervalo r.movimiento = [] →
        r.tricycle = some 0) ∧
    (∀ r ∈ mergeArchivosDia chile fil, r.tricycle ≠ none) ∧
    (∀ r ∈ procesarSoloChile chile, r.tricycle = some 0) := by
  refine ⟨?_, ?_, ?_⟩
  · intro r hr hnm
    unfold mergeArchivosDia fillTricycle at hr
    obtain ⟨r0, hr0, hEq⟩ := List.mem_map.mp hr
    subst hEq
    unfold leftJoin at hr0
    obtain ⟨l, hl, hr0l⟩ := List.mem_flatten.mp hr0
    obtain ⟨a', ha', hEq2⟩ := List.mem_map.mp hl
    subst hEq2
    obtain ⟨h1, h2, h3, _⟩ := joinRow_fields _ _ _ hr0l
    have hm0 : matchesFor (fil.map normFRow) a'.fuente a'.intervalo a'.movimiento = [] := by
      rw [← h1, ← h2, ← h3]
      exact hnm
    have ht := joinRow_tricycle_noMatch _ _ _ hr0l hm0
    simp [ht]
  · intro r hr
    unfold mergeArchivosDia fillTricycle at hr
    obtain ⟨r0, _, hEq⟩ := List.mem_map.mp hr
    subst hEq
    simp
  · intro r hr
    unfold procesarSoloChile at hr
    obtain ⟨a, _, hEq⟩ := List.mem_map.mp hr
    subst hEq
    rfl

/-- The merged row for the unmatched middle interval of the
counterexample day. -/
def witRowC8 : MRow :=
  { fuente := "PC1", intervalo := "01/01/2025 00:15:00 - 01/01/2025 00:30:00",
    movimiento := "1", cells := [("car", none)], tricycle := some 0 }

/-- Witness for C8 at the concrete day: the unmatched row's TRICYCLE is 0. -/
theorem claim_C8_witness : witRowC8.tricycle = some 0 :=
  (claim_C8 cexChile cexFil).1 witRowC8 (by decide) (by decide)

/-- C1 amended: `merge_archivos_dia` defines the described gap repair
(`interpolar_datos_tricycle`) but never applies it; the Dataset it writes
is the raw left join — every vehicle cell of every written row is carried
over verbatim from its family-A source row (missing values stay missing,
nothing is interpolated, filled, clipped, rounded, or dropped), the keys
are the normalized family-A keys, and only TRICYCLE is filled (with 0 when
missing). -/
theorem claim_C1 (chile : List CRow) (fil : List FRow) :
    ∀ r ∈ mergeArchivosDia chile fil, ∃ a ∈ chile,
      r.cells = a.cells ∧ r.fuente = normalizarValorPC a.fuente ∧
      r.intervalo = trimStr a.intervalo ∧ r.movimiento = trimStr a.movimiento ∧
      r.tricycle.isSome := by
  intro r hr
  unfold mergeArchivosDia fillTricycle at hr
  obtain ⟨r0, hr0, hEq⟩ := List.mem_map.mp hr
  subst hEq
  unfold leftJoin at hr0
  obtain ⟨l, hl, hr0l⟩ := List.mem_flatten.mp hr0
  obtain ⟨a', ha', hEq2⟩ := List.mem_map.mp hl
  subst hEq2
  obtain ⟨a, ha, hEq3⟩ := List.mem_map.mp ha'
  subst hEq3
  obtain ⟨h1, h2, h3, h4⟩ := joinRow_fields _ _ _ hr0l
  exact ⟨a, ha, h4, h1, h2, h3, rfl⟩

/-- Witness for the amended C1 at the concrete day. -/
theorem claim_C1_witness :
    ∃ a ∈ cexChile, witRowC8.cells = a.cells ∧
      witRowC8.fuente = normalizarValorPC a.fuente ∧
      witRowC8.intervalo = trimStr a.intervalo ∧
      witRowC8.movimiento = trimStr a.movimiento ∧
      witRowC8.tricycle.isSome :=
  claim_C1 cexChile cexFil witRowC8 (by decide)

end MergeClPh

namespace InterpTricycles

open MergeClPh (strLe sortBy insertSorted withIdxG dedupKeep dedupKeepAux clip0 keyLe Frac
  roundHalfEvenFrac)

/-- A timestamp, as absolute minutes: day number × 1440 + minutes of the
day.  The source manipulates `datetime` values; only minute arithmetic,
date extraction and hour-of-day comparison are used by the code in scope. -/
abbrev DT := Int

/-- `.date()`: the calendar day. -/
def dtDate (t : DT) : Int := t.fdiv 1440

/-- `.hour`: the hour of the day. -/
def dtHour (t : DT) : Int := (t.emod 1440).fdiv 60

/-- `.replace(hour=0, minute=0, second=0)`: midnight of the same day. -/
def dtMidnight (t : DT) : DT := 1440 * t.fdiv 1440

/-- One raw record of a family-B day-file after `normalizar_columnas`
(`interp_tricycles.py`): the identification columns, the raw interval text
(the downstream sort key), its parsed start (`strptime` of the text before
` - `), and the tracked TRICYCLE count. -/
structure TRow where
  proyecto : String
  localizacion : String
  fuente : String
  geolocalizacion : String
  movimiento : String
  intervalo : String
  start : DT
  tricycle : Int
  deriving Repr, DecidableEq

/-- One emitted 15-minute record; the INTERVALO text
`start.strftime(...) - (start+15m).strftime(...)` is represented by the
start instant. -/
structure ORow where
  proyecto : String
  localizacion : String
  fuente : String
  geolocalizacion : String
  movimiento : String
  intervaloStart : DT
  tricycle : Int
  deriving Repr, DecidableEq

/-- The rows of one (fuente de datos, movimiento) group, in original
order, labels preserved. -/
def groupOf (df : List (ℕ × TRow)) (f m : String) : List (ℕ × TRow) :=
  df.filter (fun p => p.2.fuente = f ∧ p.2.movimiento = m)

/-- The sorted group keys of `df.groupby(['fuente de datos',
'movimiento'])` (pandas sorts group keys). -/
def groupKeys (df : List (ℕ × TRow)) : List (String × String) :=
  sortBy keyLe (dedupKeep (df.map (fun p => (p.2.fuente, p.2.movimiento))))

def rowLe (a b : ℕ × TRow) : Bool := strLe a.2.intervalo b.2.intervalo

/-- `grupo.sort_values('intervalo')`. -/
def sortGroup (grupo : List (ℕ × TRow)) : List (ℕ × TRow) := sortBy rowLe grupo

/-- `fecha_base`: midnight of the day of the sorted group's first record. -/
def fechaBase (sorted : List (ℕ × TRow)) : DT :=
  match sorted.head? with
  | some p => dtMidnight p.2.start
  | none => 0

def dictInsert (d : List (DT × Int)) (k : DT) (v : Int) : List (DT × Int) :=
  if d.any (fun p => p.1 = k) then d.map (fun p => if p.1 = k then (k, v) else p)
  else d ++ [(k, v)]

def dictLookup (d : List (DT × Int)) (k : DT) : Option Int :=
  (d.find? (fun p => p.1 = k)).map Prod.snd

/-- `valores_por_hora` (lines 152-156): each row is assigned to the hour
`(index label) % (group size)` of the base day; on collision the row later
in sorted order overwrites. -/
def valoresPorHora (base : DT) (n : ℕ) (sorted : List (ℕ × TRow)) : List (DT × Int) :=
  sorted.foldl
    (fun d p => dictInsert d (base + 60 * ((p.1 : Int) % (n : Int))) p.2.tricycle) []

/-- The fixed weight numerators (×10): 1.0, 0.7, 0.4, 0.2 for minutes
0/15/30/45. -/
def weightNum (minute : Int) : Int :=
  if minute = 0 then 10 else if minute = 15 then 7 else if minute = 30 then 4 else 2

/-- The TRICYCLE ×3 pre-scaling (line 132). -/
def scaleRow (p : ℕ × TRow) : ℕ × TRow :=
  (p.1, { p.2 with tricycle := 3 * p.2.tricycle })

/-- One emitted bucket of `interpolar_datos_horarios` (lines 158-184),
over the already interval-sorted group: the `k`-th 15-minute bucket of the
base day carries the hour's assigned (already ×3-scaled) value weighted by
1.0/0.7/0.4/0.2 according to the minute, rounded (`int(round(...))`, half
to even on the exact rational) and clamped at 0 (`max(0, valor)`). -/
def emitHorario (sorted : List (ℕ × TRow)) (f m : String) (k : ℕ) : ORow :=
  { proyecto := (sorted.head?.map (fun p => p.2.proyecto)).getD ""
    localizacion := (sorted.head?.map (fun p => p.2.localizacion)).getD ""
    fuente := f
    geolocalizacion := (sorted.head?.map (fun p => p.2.geolocalizacion)).getD ""
    movimiento := m
    intervaloStart := fechaBase sorted + 15 * (k : Int)
    tricycle := clip0 (roundHalfEvenFrac
      { num := ((dictLookup (valoresPorHora (fechaBase sorted) sorted.length sorted)
            (fechaBase sorted + 60 * ((k : Int) / 4))).getD 0)
          * weightNum (15 * ((k : Int) % 4)),
        den := 10 }) }

/-- One group of `interpolar_datos_horarios` (lines 135-184): 96 records,
one per 15-minute bucket of the base day. -/
def procesarGrupoHorario (grupo : List (ℕ × TRow)) (f m : String) : List ORow :=
  (List.range 96).map (emitHorario (sortGroup grupo) f m)

def oRowLe (a b : ORow) : Bool :=
  if a.fuente = b.fuente then
    (if a.movimiento = b.movimiento then decide (a.intervaloStart ≤ b.intervaloStart)
     else strLe a.movimiento b.movimiento)
  else strLe a.fuente b.fuente

/-- `interpolar_datos_horarios` (lines 119-186): scale TRICYCLE by 3,
process each (fuente, movimiento) group, and sort the result by
(fuente, movimiento, interval start). -/
def interpolarDatosHorarios (df : List (ℕ × TRow)) : List ORow :=
  sortBy oRowLe
    ((groupKeys (df.map scaleRow)).map (fun k =>
      procesarGrupoHorario (groupOf (df.map scaleRow) k.1 k.2) k.1 k.2)).flatten

/-- The TRICYCLE ×(15/minutes-per-sample) pre-scaling of
`interpolar_datos_15min` (lines 201-204), rounded half to even on the
exact rational. -/
def scaleRow15 (m : Int) (p : ℕ × TRow) : ℕ × TRow :=
  (p.1, { p.2 with tricycle := roundHalfEvenFrac { num := 15 * p.2.tricycle, den := m } })

/-- One emitted record of `interpolar_datos_15min` (lines 217-234): the
record is re-timestamped to the bucket starting
`15 × ((index label) % (group size))` minutes after midnight of the base
day. -/
def emit15 (n : ℕ) (base : DT) (f m : String) (p : ℕ × TRow) : ORow :=
  { proyecto := p.2.proyecto
    localizacion := p.2.localizacion
    fuente := f
    geolocalizacion := p.2.geolocalizacion
    movimiento := m
    intervaloStart := base + 15 * ((p.1 : Int) % (n : Int))
    tricycle := p.2.tricycle }

/-- One group of `interpolar_datos_15min` (lines 207-234). -/
def procesarGrupo15 (grupo : List (ℕ × TRow)) (f m : String) : List ORow :=
  (sortGroup grupo).map
    (emit15 (sortGroup grupo).length (fechaBase (sortGroup grupo)) f m)

/-- `interpolar_datos_15min` (lines 188-236). -/
def interpolarDatos15min (minutos : Int) (df : List (ℕ × TRow)) : List ORow :=
  sortBy oRowLe
    ((groupKeys (df.map (scaleRow15 minutos))).map (fun k =>
      procesarGrupo15 (groupOf (df.map (scaleRow15 minutos)) k.1 k.2) k.1 k.2)).flatten

/-- A raw day-file in which the rows of two (fuente, movimiento) groups
interleave, so the second group's DataFrame index labels are 0 and 2. -/
def cexDf15 : List (ℕ × TRow) :=
  withIdxG 0
    [{ proyecto := "P", localizacion := "L", fuente := "A", geolocalizacion := "G",
       movimiento := "1", intervalo := "a1", start := 0, tricycle := 1 },
     { proyecto := "P", localizacion := "L", fuente := "B", geolocalizacion := "G",
       movimiento := "1", intervalo := "b1", start := 0, tricycle := 1 },
     { proyecto := "P", localizacion := "L", fuente := "A", geolocalizacion := "G",
       movimiento := "1", intervalo := "a2", start := 15, tricycle := 1 },
     { proyecto := "P", localizacion := "L", fuente := "B", geolocalizacion := "G",
       movimiento := "1", intervalo := "b2", start := 15, tricycle := 1 }]

/-- C7 counterexample: the bucket of a record is determined by its
DataFrame index label modulo the group size (`idx % len(grupo)`), not by
its position in the sorted group.  In a day-file whose two groups
interleave, group A has labels {0, 2} and size 2, so BOTH of its records
land in the first bucket (00:00) and no record lands in the second
(00:15): the buckets are neither contiguous nor non-overlapping and row
order does not determine bucket order. -/
theorem claim_C7_counterexample :
    ((interpolarDatos15min 5 cexDf15).filter
        (fun r => r.fuente = "A" ∧ r.intervaloStart = 0)).length = 2 ∧
    ((interpolarDatos15min 5 cexDf15).filter
        (fun r => r.fuente = "A" ∧ r.intervaloStart = 15)).length = 0 := by
  decide

theorem insertSorted_perm {α : Type} (le : α → α → Bool) (a : α) :
    ∀ l : List α, (insertSorted le a l).Perm (a :: l) := by
  intro l
  induction l with
  | nil => exact List.Perm.refl _
  | cons b t ih =>
      show (if le b a then b :: insertSorted le a t else a :: b :: t).Perm _
      by_cases h : le b a
      · rw [if_pos h]
        exact (ih.cons b).trans (List.Perm.swap a b t)
      · rw [if_neg h]

theorem sortBy_perm {α : Type} (le : α → α → Bool) (l : List α) : (sortBy le l).Perm l := by
  have key : ∀ (l acc : List α),
      (l.foldl (fun acc a => insertSorted le a acc) acc).Perm (l ++ acc) := by
    intro l
    induction l with
    | nil => intro acc; simp
    | cons a t ih =>
        intro acc
        have h1 := ih (insertSorted le a acc)
        have h2 : (t ++ insertSorted le a acc).Perm (t ++ a :: acc) :=
          List.Perm.append_left t (insertSorted_perm le a acc)
        have h3 : (t ++ a :: acc).Perm (a :: (t ++ acc)) := List.perm_middle
        simpa using (h1.trans h2).trans h3
  simpa using key l []

theorem filter_map_comm {α β : Type} (g : α → β) (p : β → Bool) (l : List α) :
    (l.map g).filter p = (l.filter (fun a => p (g a))).map g := by
  induction l with
  | nil => rfl
  | cons a t ih =>
      cases h : p (g a) with
      | true => simp [List.filter_cons, h, ih]
      | false => simp [List.filter_cons, h, ih]

theorem insertSorted_map {α β : Type} (le : β → β → Bool) (le' : α → α → Bool) (g : α → β)
    (h : ∀ a b, le (g a) (g b) = le' a b) (a : α) :
    ∀ l : List α, insertSorted le (g a) (l.map g) = (insertSorted le' a l).map g := by
  intro l
  induction l with
  | nil => rfl
  | cons b t ih =>
      show (if le (g b) (g a) then g b :: insertSorted le (g a) (t.map g)
            else g a :: g b :: t.map g) = _
      rw [h b a]
      by_cases hb : le' b a
      · rw [if_pos hb, ih]
        show _ = (if le' b a then b :: insertSorted le' a t else a :: b :: t).map g
        rw [if_pos hb]
        rfl
      · rw [if_neg hb]
        show _ = (if le' b a then b :: insertSorted le' a t else a :: b :: t).map g
        rw [if_neg hb]
        rfl

theorem sortBy_map {α β : Type} (le : β → β → Bool) (le' : α → α → Bool) (g : α → β)
    (h : ∀ a b, le (g a) (g b) = le' a b) (l : List α) :
    sortBy le (l.map g) = (sortBy le' l).map g := by
  have key : ∀ (l acc : List α),
      (l.map g).foldl (fun acc a => insertSorted le a acc) (acc.map g)
        = (l.foldl (fun acc a => insertSorted le' a acc) acc).map g := by
    intro l
    induction l with
    | nil => intro acc; rfl
    | cons a t ih =>
        intro acc
        simp only [List.map_cons, List.foldl_cons]
        rw [insertSorted_map le le' g h a acc, ih (insertSorted le' a acc)]
  simpa using key l []

theorem dedupKeepAux_mem {α : Type} [DecidableEq α] :
    ∀ (l seen : List α) (a : α), a ∈ dedupKeepAux l seen ↔ (a ∈ l ∧ a ∉ seen) := by
  intro l
  induction l with
  | nil => intro seen a; simp [dedupKeepAux]
  | cons b t ih =>
      intro seen a
      by_cases hb : b ∈ seen
      · rw [show dedupKeepAux (b :: t) seen = dedupKeepAux t seen from by
          simp only [dedupKeepAux]; rw [if_pos hb]]
        rw [ih]
        constructor
        · rintro ⟨h1, h2⟩; exact ⟨List.mem_cons_of_mem b h1, h2⟩
        · rintro ⟨h1, h2⟩
          rcases List.mem_cons.mp h1 with heq | hmem
          · subst heq; exact absurd hb h2
          · exact ⟨hmem, h2⟩
      · rw [show dedupKeepAux (b :: t) seen = b :: dedupKeepAux t (b :: seen) from by
          simp only [dedupKeepAux]; rw [if_neg hb]]
        constructor
        · intro hmem
          rcases List.mem_cons.mp hmem with heq | hmem'
          · subst heq; exact ⟨by simp, hb⟩
          · obtain ⟨h1, h2⟩ := (ih (b :: seen) a).mp hmem'
            exact ⟨List.mem_cons_of_mem b h1,
              fun hs => h2 (List.mem_cons_of_mem b hs)⟩
        · rintro ⟨h1, h2⟩
          rcases List.mem_cons.mp h1 with heq | hmem
          · subst heq; exact List.mem_cons_self _ _
          · by_cases hab : a = b
            · subst hab; exact List.mem_cons_self _ _
            · refine List.mem_cons_of_mem b ((ih (b :: seen) a).mpr ⟨hmem, ?_⟩)
              intro hs
              rcases List.mem_cons.mp hs with h | h
              · exact hab h
              · exact h2 h

theorem dedupKeepAux_nodup {α : Type} [DecidableEq α] :
    ∀ (l seen : List α), (dedupKeepAux l seen).Nodup := by
  intro l
  induction l with
  | nil => intro seen; exact List.Pairwise.nil
  | cons b t ih =>
      intro seen
      by_cases hb : b ∈ seen
      · rw [show dedupKeepAux (b :: t) seen = dedupKeepAux t seen from by
          simp only [dedupKeepAux]; rw [if_pos hb]]
        exact ih seen
      · rw [show dedupKeepAux (b :: t) seen = b :: dedupKeepAux t (b :: seen) from by
          simp only [dedupKeepAux]; rw [if_neg hb]]
        refine List.nodup_cons.mpr ⟨?_, ih (b :: seen)⟩
        intro hmem
        exact ((dedupKeepAux_mem t (b :: seen) b).mp hmem).2 (by simp)

theorem dedupKeep_mem {α : Type} [DecidableEq α] (l : List α) (a : α) :
    a ∈ dedupKeep l ↔ a ∈ l := by
  unfold dedupKeep
  rw [dedupKeepAux_mem]
  simp

theorem dedupKeep_nodup {α : Type} [DecidableEq α] (l : List α) : (dedupKeep l).Nodup :=
  dedupKeepAux_nodup l []

/-- `fecha_base` of a group, computed from the raw day-file. -/
def fechaBaseOf (df : List (ℕ × TRow)) (f m : String) : DT :=
  fechaBase (sortGroup (groupOf df f m))

theorem groupOf_scale (df : List (ℕ × TRow)) (f m : String) :
    groupOf (df.map scaleRow) f m = (groupOf df f m).map scaleRow := by
  unfold groupOf
  rw [filter_map_comm]
  rfl

theorem sortGroup_scale (g : List (ℕ × TRow)) :
    sortGroup (g.map scaleRow) = (sortGroup g).map scaleRow :=
  sortBy_map rowLe rowLe scaleRow (fun _ _ => rfl) g

theorem fechaBase_scale (g : List (ℕ × TRow)) :
    fechaBase (g.map scaleRow) = fechaBase g := by
  unfold fechaBase
  rw [List.head?_map]
  cases g.head? <;> rfl

theorem groupKeys_scale (df : List (ℕ × TRow)) :
    groupKeys (df.map scaleRow) = groupKeys df := by
  unfold groupKeys
  rw [List.map_map]
  rfl

theorem fechaBase_groupOf_scale (df : List (ℕ × TRow)) (f m : String) :
    fechaBase (sortGroup (groupOf (df.map scaleRow) f m)) = fechaBaseOf df f m := by
  rw [groupOf_scale, sortGroup_scale, fechaBase_scale]
  rfl

theorem procesarGrupoHorario_length (g : List (ℕ × TRow)) (f m : String) :
    (procesarGrupoHorario g f m).length = 96 := by
  unfold procesarGrupoHorario
  simp

theorem procesarGrupoHorario_fields (g : List (ℕ × TRow)) (f m : String) :
    ∀ r ∈ procesarGrupoHorario g f m, r.fuente = f ∧ r.movimiento = m := by
  intro r h
  unfold procesarGrupoHorario at h
  obtain ⟨k, _, hEq⟩ := List.mem_map.mp h
  subst hEq
  exact ⟨rfl, rfl⟩

theorem groupKeys_nodup (df : List (ℕ × TRow)) : (groupKeys df).Nodup := by
  unfold groupKeys
  exact (List.Perm.nodup_iff
    (sortBy_perm keyLe (dedupKeep (df.map (fun p => (p.2.fuente, p.2.movimiento)))))).mpr
    (dedupKeep_nodup _)

theorem groupKeys_mem_iff (df : List (ℕ × TRow)) (f m : String) :
    (f, m) ∈ groupKeys df ↔ groupOf df f m ≠ [] := by
  unfold groupKeys groupOf
  rw [List.Perm.mem_iff
    (sortBy_perm keyLe (dedupKeep (df.map (fun p => (p.2.fuente, p.2.movimiento))))),
    dedupKeep_mem, List.mem_map]
  constructor
  · rintro ⟨p, hp, hEq⟩ hnil
    have hpred : (fun p : ℕ × TRow => decide (p.2.fuente = f ∧ p.2.movimiento = m)) p
        = true := by
      have h1 : p.2.fuente = f := congrArg Prod.fst hEq
      have h2 : p.2.movimiento = m := congrArg Prod.snd hEq
      simp [h1, h2]
    have : p ∈ df.filter (fun p => decide (p.2.fuente = f ∧ p.2.movimiento = m)) :=
      List.mem_filter.mpr ⟨hp, hpred⟩
    rw [hnil] at this
    cases this
  · intro hne
    obtain ⟨p, hp⟩ := List.exists_mem_of_ne_nil _ hne
    obtain ⟨hpdf, hpred⟩ := List.mem_filter.mp hp
    have := of_decide_eq_true hpred
    exact ⟨p, hpdf, by rw [this.1, this.2]⟩

theorem sum_single {β : Type} [DecidableEq β] (c : ℕ) (k0 : β) (g : β → ℕ) :
    ∀ keys : List β, keys.Nodup → k0 ∈ keys →
      (∀ k ∈ keys, g k = if k = k0 then c else 0) → (keys.map g).sum = c := by
  intro keys
  induction keys with
  | nil => intro _ h; cases h
  | cons a t ih =>
      intro hnd hmem hval
      rcases List.mem_cons.mp hmem with heq | hmem'
      · subst heq
        have ha : g k0 = c := by
          have := hval k0 (by simp)
          simpa using this
        have hsum0 : (t.map g).sum = 0 := by
          apply List.sum_eq_zero
          intro x hx
          obtain ⟨k, hk, hEq⟩ := List.mem_map.mp hx
          rw [← hEq]
          have := hval k (List.mem_cons_of_mem _ hk)
          rw [if_neg] at this
          · exact this
          · intro hkk
            rw [hkk] at hk
            exact (List.nodup_cons.mp hnd).1 hk
        simp [ha, hsum0]
      · have ha0 : g a = 0 := by
          have := hval a (by simp)
          rw [if_neg] at this
          · exact this
          · intro heq
            rw [heq] at hnd
            exact (List.nodup_cons.mp hnd).1 hmem'
        have := ih (List.nodup_cons.mp hnd).2 hmem'
          (fun k hk => hval k (List.mem_cons_of_mem _ hk))
        simp [ha0, this]

theorem countP_group_same (g : List (ℕ × TRow)) (f m : String) :
    (procesarGrupoHorario g f m).countP
      (fun r => decide (r.fuente = f ∧ r.movimiento = m)) = 96 := by
  have h : (procesarGrupoHorario g f m).countP
      (fun r => decide (r.fuente = f ∧ r.movimiento = m))
      = (procesarGrupoHorario g f m).length := by
    apply List.countP_eq_length.mpr
    intro r hr
    obtain ⟨h1, h2⟩ := procesarGrupoHorario_fields g f m r hr
    simp [h1, h2]
  rw [h, procesarGrupoHorario_length]

theorem countP_group_other (g : List (ℕ × TRow)) (f m f' m' : String)
    (hne : ¬(f = f' ∧ m = m')) :
    (procesarGrupoHorario g f m).countP
      (fun r => decide (r.fuente = f' ∧ r.movimiento = m')) = 0 := by
  apply List.countP_eq_zero.mpr
  intro r hr
  obtain ⟨h1, h2⟩ := procesarGrupoHorario_fields g f m r hr
  simp [h1, h2, hne]

/-- C10: under HOURLY mode, every nonempty (control point, movement)
group yields exactly 96 output records, one for each consecutive
15-minute bucket of the group's base calendar day, whatever the number of
input rows. -/
theorem claim_C10 (df : List (ℕ × TRow)) (f m : String) (hne : groupOf df f m ≠ []) :
    ((interpolarDatosHorarios df).filter
        (fun r => r.fuente = f ∧ r.movimiento = m)).length = 96 ∧
    ∀ k : ℕ, k < 96 →
      ((interpolarDatosHorarios df).filter (fun r => r.fuente = f ∧ r.movimiento = m ∧
          r.intervaloStart = fechaBaseOf df f m + 15 * (k : Int))).length = 1 := by
  have hnes : groupOf (df.map scaleRow) f m ≠ [] := by
    rw [groupOf_scale]
    intro h0
    exact hne (List.map_eq_nil.mp h0)
  have hmem : (f, m) ∈ groupKeys (df.map scaleRow) :=
    (groupKeys_mem_iff (df.map scaleRow) f m).mpr hnes
  have hnodup := groupKeys_nodup (df.map scaleRow)
  constructor
  · rw [← List.countP_eq_length_filter]
    unfold interpolarDatosHorarios
    rw [List.Perm.countP_eq _ (sortBy_perm oRowLe _), List.countP_join, List.map_map]
    exact sum_single 96 (f, m) _ (groupKeys (df.map scaleRow)) hnodup hmem
      (by
        intro k hk
        by_cases hkk : k = (f, m)
        · rw [if_pos hkk, hkk]
          exact countP_group_same _ f m
        · rw [if_neg hkk]
          apply countP_group_other
          intro ⟨h1, h2⟩
          apply hkk
          rw [← h1, ← h2])
  · intro k hk
    rw [← List.countP_eq_length_filter]
    unfold interpolarDatosHorarios
    rw [List.Perm.countP_eq _ (sortBy_perm oRowLe _), List.countP_join, List.map_map]
    apply sum_single 1 (f, m) _ (groupKeys (df.map scaleRow)) hnodup hmem
    intro k2 hk2
    by_cases hkk : k2 = (f, m)
    · rw [if_pos hkk, hkk]
      show (procesarGrupoHorario (groupOf (df.map scaleRow) f m) f m).countP _ = 1
      unfold procesarGrupoHorario
      rw [List.countP_map]
      have hbase : fechaBase (sortGroup (groupOf (df.map scaleRow) f m))
          = fechaBaseOf df f m := fechaBase_groupOf_scale df f m
      have hcongr : ∀ x ∈ List.range 96,
          ((fun r : ORow => decide (r.fuente = f ∧ r.movimiento = m ∧
              r.intervaloStart = fechaBaseOf df f m + 15 * (k : Int)))
            ∘ emitHorario (sortGroup (groupOf (df.map scaleRow) f m)) f m) x
          = decide (x = k) := by
        intro x _
        show decide (f = f ∧ m = m ∧
            fechaBase (sortGroup (groupOf (df.map scaleRow) f m)) + 15 * (x : Int)
              = fechaBaseOf df f m + 15 * (k : Int)) = decide (x = k)
        rw [hbase]
        by_cases hxk : x = k
        · subst hxk; simp
        · have hne2 : ¬(fechaBaseOf df f m + 15 * (x : Int)
              = fechaBaseOf df f m + 15 * (k : Int)) := by
            intro hcon
            apply hxk
            have h15 : (15 : Int) * (x : Int) = 15 * (k : Int) := add_left_cancel hcon
            have hx : (x : Int) = (k : Int) :=
              mul_left_cancel₀ (by norm_num : (15 : Int) ≠ 0) h15
            exact_mod_cast hx
          simp [hxk, hne2]
      rw [List.countP_eq_length_filter, List.filter_congr hcongr,
        ← List.countP_eq_length_filter]
      have : (List.range 96).countP (fun x => decide (x = k))
          = (List.range 96).count k := by
        rw [List.countP_eq_length_filter, List.count, List.countP_eq_length_filter]
        have hpt : ∀ a ∈ List.range 96, (decide (a = k)) = (a == k) := by
          intro a _
          by_cases h : a = k
          · simp [h]
          · have h2 : (a == k) = false := beq_false_of_ne h
            simp [h, h2]
        rw [List.filter_congr hpt]
      rw [this]
      exact List.count_eq_one_of_mem (List.nodup_range 96) (List.mem_range.mpr hk)
    · rw [if_neg hkk]
      apply List.countP_eq_zero.mpr
      intro r hr
      obtain ⟨h1, h2⟩ := procesarGrupoHorario_fields _ k2.1 k2.2 r hr
      intro hcon
      have := of_decide_eq_true hcon
      apply hkk
      have e1 : k2.1 = f := by rw [← h1, this.1]
      have e2 : k2.2 = m := by rw [← h2, this.2.1]
      calc k2 = (k2.1, k2.2) := rfl
        _ = (f, m) := by rw [e1, e2]

/-- Witness for C10 at a concrete day-file. -/
theorem claim_C10_witness :
    ((interpolarDatosHorarios cexDf15).filter
        (fun r => r.fuente = "A" ∧ r.movimiento = "1")).length = 96 :=
  (claim_C10 cexDf15 "A" "1" (by decide)).1

/-- The ×3 scaling on a dictionary value. -/
def escalaVal (q : DT × Int) : DT × Int := (q.1, 3 * q.2)

theorem any_key_map (d : List (DT × Int)) (k : DT) :
    ((d.map escalaVal).any (fun p => p.1 = k)) = (d.any (fun p => p.1 = k)) := by
  induction d with
  | nil => rfl
  | cons a t ih => simp only [List.map_cons, List.any_cons, ih]; rfl

theorem dictInsert_map (d : List (DT × Int)) (k : DT) (v : Int) :
    dictInsert (d.map escalaVal) k (3 * v) = (dictInsert d k v).map escalaVal := by
  unfold dictInsert
  rw [any_key_map]
  by_cases h : (d.any (fun p => p.1 = k)) = true
  · rw [if_pos h, if_pos h, List.map_map, List.map_map]
    apply List.map_congr_left
    intro a _
    by_cases ha : a.1 = k
    · simp [Function.comp, escalaVal, ha]
    · simp [Function.comp, escalaVal, ha]
  · rw [if_neg h, if_neg h, List.map_append]
    rfl

theorem valoresPorHora_scale (base : DT) (n : ℕ) :
    ∀ (l : List (ℕ × TRow)) (d : List (DT × Int)),
      (l.map scaleRow).foldl
          (fun d p => dictInsert d (base + 60 * ((p.1 : Int) % (n : Int))) p.2.tricycle)
          (d.map escalaVal)
        = (l.foldl
            (fun d p => dictInsert d (base + 60 * ((p.1 : Int) % (n : Int))) p.2.tricycle)
            d).map escalaVal := by
  intro l
  induction l with
  | nil => intro d; rfl
  | cons p t ih =>
      intro d
      simp only [List.map_cons, List.foldl_cons]
      have hstep : dictInsert (d.map escalaVal)
            (base + 60 * (((scaleRow p).1 : Int) % (n : Int))) (scaleRow p).2.tricycle
          = (dictInsert d (base + 60 * ((p.1 : Int) % (n : Int))) p.2.tricycle).map
              escalaVal := by
        show dictInsert (d.map escalaVal) (base + 60 * ((p.1 : Int) % (n : Int)))
            (3 * p.2.tricycle) = _
        exact dictInsert_map d _ p.2.tricycle
      rw [hstep, ih]

theorem dictLookup_map (d : List (DT × Int)) (k : DT) :
    dictLookup (d.map escalaVal) k = (dictLookup d k).map (fun v => 3 * v) := by
  unfold dictLookup
  rw [List.find?_map]
  have hpred : ((fun p : DT × Int => decide (p.1 = k)) ∘ escalaVal)
      = (fun p : DT × Int => decide (p.1 = k)) := rfl
  rw [hpred]
  cases d.find? (fun p : DT × Int => decide (p.1 = k)) <;> rfl

/-- The hourly value assigned to hour `h` of the group's base day, from
the UNSCALED input rows (the `valores_por_hora` assignment: row with index
label `i` goes to hour `i % n`, later rows in sorted order overwrite;
hours with no assigned row yield 0 through `.get(..., 0)`). -/
def horaValorRaw (df : List (ℕ × TRow)) (f m : String) (h : Int) : Int :=
  (dictLookup
    (valoresPorHora (fechaBaseOf df f m) (sortGroup (groupOf df f m)).length
      (sortGroup (groupOf df f m)))
    (fechaBaseOf df f m + 60 * h)).getD 0

/-- C6: under HOURLY mode every emitted record's value is obtained by
first scaling the hour's assigned input value by 3, multiplying by the
fixed weight 1.0 / 0.7 / 0.4 / 0.2 for buckets starting at minute
0 / 15 / 30 / 45 (bucket `k` of the 96 starts at `15·k` minutes after
midnight, so its minute is `15·(k % 4)` and its hour `k / 4`), rounding to
the nearest integer (half to even on the exact rational) and clamping at
0; hours with no assigned input value contribute a base value of 0. -/
theorem claim_C6 (df : List (ℕ × TRow)) (r : ORow)
    (hr : r ∈ interpolarDatosHorarios df) :
    ∃ k : ℕ, k < 96 ∧
      r.intervaloStart = fechaBaseOf df r.fuente r.movimiento + 15 * (k : Int) ∧
      r.tricycle = MergeClPh.clip0 (roundHalfEvenFrac
        { num := (3 * horaValorRaw df r.fuente r.movimiento ((k : Int) / 4))
            * weightNum (15 * ((k : Int) % 4)),
          den := 10 }) := by
  unfold interpolarDatosHorarios at hr
  rw [List.Perm.mem_iff (sortBy_perm oRowLe _)] at hr
  obtain ⟨l, hl, hrl⟩ := List.mem_flatten.mp hr
  obtain ⟨k2, _, hEq⟩ := List.mem_map.mp hl
  subst hEq
  unfold procesarGrupoHorario at hrl
  obtain ⟨k, hkrange, hEq⟩ := List.mem_map.mp hrl
  have hk96 := List.mem_range.mp hkrange
  subst hEq
  refine ⟨k, hk96, ?_, ?_⟩
  · show fechaBase (sortGroup (groupOf (df.map scaleRow) k2.1 k2.2)) + 15 * (k : Int)
        = fechaBaseOf df k2.1 k2.2 + 15 * (k : Int)
    rw [fechaBase_groupOf_scale]
  · show MergeClPh.clip0 (roundHalfEvenFrac
        { num := ((dictLookup
              (valoresPorHora (fechaBase (sortGroup (groupOf (df.map scaleRow) k2.1 k2.2)))
                (sortGroup (groupOf (df.map scaleRow) k2.1 k2.2)).length
                (sortGroup (groupOf (df.map scaleRow) k2.1 k2.2)))
              (fechaBase (sortGroup (groupOf (df.map scaleRow) k2.1 k2.2))
                + 60 * ((k : Int) / 4))).getD 0)
            * weightNum (15 * ((k : Int) % 4)),
          den := 10 })
      = MergeClPh.clip0 (roundHalfEvenFrac
        { num := (3 * horaValorRaw df k2.1 k2.2 ((k : Int) / 4))
            * weightNum (15 * ((k : Int) % 4)),
          den := 10 })
    have hsg : sortGroup (groupOf (df.map scaleRow) k2.1 k2.2)
        = (sortGroup (groupOf df k2.1 k2.2)).map scaleRow := by
      rw [groupOf_scale, sortGroup_scale]
    have hbase : fechaBase (sortGroup (groupOf (df.map scaleRow) k2.1 k2.2))
        = fechaBaseOf df k2.1 k2.2 := fechaBase_groupOf_scale df k2.1 k2.2
    rw [hbase, hsg, List.length_map]
    have hv : valoresPorHora (fechaBaseOf df k2.1 k2.2)
          (sortGroup (groupOf df k2.1 k2.2)).length
          ((sortGroup (groupOf df k2.1 k2.2)).map scaleRow)
        = (valoresPorHora (fechaBaseOf df k2.1 k2.2)
            (sortGroup (groupOf df k2.1 k2.2)).length
            (sortGroup (groupOf df k2.1 k2.2))).map escalaVal := by
      unfold valoresPorHora
      exact valoresPorHora_scale (fechaBaseOf df k2.1 k2.2)
        (sortGroup (groupOf df k2.1 k2.2)).length (sortGroup (groupOf df k2.1 k2.2)) []
    rw [hv, dictLookup_map]
    unfold horaValorRaw
    cases dictLookup
        (valoresPorHora (fechaBaseOf df k2.1 k2.2)
          (sortGroup (groupOf df k2.1 k2.2)).length (sortGroup (groupOf df k2.1 k2.2)))
        (fechaBaseOf df k2.1 k2.2 + 60 * ((k : Int) / 4)) with
    | none => simp
    | some v => rfl

/-- `mapeo_fecha_especifica[pc]` lookup (Python dict membership/access),
over an insertion-ordered association list. -/
def lookupPC (mapeo : List (String × DT)) (pc : String) : Option DT :=
  (mapeo.find? (fun q => q.1 = pc)).map Prod.snd

/-- Python dict re-assignment of an existing key. -/
def updatePC (mapeo : List (String × DT)) (pc : String) (v : DT) : List (String × DT) :=
  mapeo.map (fun q => if q.1 = pc then (pc, v) else q)

/-- One iteration of the `mapeo_fecha_especifica` build loop
(`procesar_archivo_inicial` lines 352-367) on one AnchorMap entry
`((punto_control, fecha_config), fecha_hora)`: entries of other dates are
ignored; previous-day entries with hour < 22 are skipped; a first entry
for a control point is inserted; an existing entry is replaced iff
(current hour < 22 and new hour >= 22) or (both hours >= 22 and the new
datetime is later). -/
def mapeoStep (primera : Int) (mapeo : List (String × DT)) (e : (String × Int) × DT) :
    List (String × DT) :=
  if e.1.2 = primera ∨ e.1.2 = primera - 1 then
    if e.1.2 = primera - 1 ∧ dtHour e.2 < 22 then mapeo
    else
      match lookupPC mapeo e.1.1 with
      | some cur =>
          if (dtHour cur < 22 ∧ 22 ≤ dtHour e.2) ∨
             (22 ≤ dtHour cur ∧ 22 ≤ dtHour e.2 ∧ cur < e.2) then
            updatePC mapeo e.1.1 e.2
          else mapeo
      | none => mapeo ++ [(e.1.1, e.2)]
  else mapeo

/-- The `mapeo_fecha_especifica` dict built from the AnchorMap `cfg`
(`fecha_inicio_mapping` as an insertion-ordered list of
`((punto_control, fecha_config), fecha_hora)` entries, dates as day
numbers) for a file whose first record's date is `primera`. -/
def buildMapeo (primera : Int) (cfg : List ((String × Int) × DT)) : List (String × DT) :=
  cfg.foldl (mapeoStep primera) []

/-- The surviving-candidate combination rule implicit in the build loop. -/
def anchorStep (cur : Option DT) (c : DT) : Option DT :=
  match cur with
  | none => some c
  | some v =>
      if (dtHour v < 22 ∧ 22 ≤ dtHour c) ∨ (22 ≤ dtHour v ∧ 22 ≤ dtHour c ∧ v < c) then some c
      else some v

/-- The AnchorMap entries that can contribute to `pc`'s anchor: same-day
entries of any hour, previous-day entries of hour >= 22, in map order. -/
def anchorCands (primera : Int) (pc : String) (cfg : List ((String × Int) × DT)) : List DT :=
  cfg.filterMap (fun e =>
    if e.1.1 = pc ∧ (e.1.2 = primera ∨ (e.1.2 = primera - 1 ∧ 22 ≤ dtHour e.2)) then some e.2
    else none)

/-- `corregir_intervalos` (lines 63-92) on one (control point, movement)
group: fails (`raise ValueError`) when the control point has no anchor;
otherwise re-labels row `i` of the group with the 5-minute interval
starting at `anchor-time-of-day on the group's first record's date`
plus `5·i` minutes. -/
def corregirIntervalos (grupo : List TRow) (fuente : String) (mapeo : List (String × DT)) :
    Option (List TRow) :=
  match lookupPC mapeo fuente with
  | none => none
  | some fh =>
      let inicio : DT :=
        1440 * dtDate ((grupo.head?.map (fun r => r.start)).getD 0) + (fh - 1440 * dtDate fh)
      some ((withIdxG 0 grupo).map (fun p => { p.2 with start := inicio + 5 * (p.1 : Int) }))

/-- One raw day-file for the Interval Corrector: the date of its first
record and its (control point, rows) groups. -/
structure DayFileC4 where
  primera : Int
  groups : List (String × List TRow)
  deriving Repr, DecidableEq

/-- `procesar_archivo_inicial` on one file: error when the built mapping
is empty (line 369-370) or any group's anchor is missing (the exception
from `corregir_intervalos` propagates to the file-level handler, lines
379-381), else the corrected groups. -/
def processDia (cfg : List ((String × Int) × DT)) (fl : DayFileC4) : Option (List (List TRow)) :=
  if buildMapeo fl.primera cfg = [] then none
  else
    fl.groups.foldr (fun g acc =>
      match corregirIntervalos g.2 g.1 (buildMapeo fl.primera cfg), acc with
      | some r, some l => some (r :: l)
      | _, _ => none) (some [])

/-- The per-file loop of `main` (lines 425-442): each file is processed
independently, an error (`None`) for one file leaves the others intact. -/
def runAll (cfg : List ((String × Int) × DT)) (files : List DayFileC4) :
    List (Option (List (List TRow))) :=
  files.map (processDia cfg)

theorem lookupPC_cons_true (q : String × DT) (t : List (String × DT)) (pc : String)
    (h : q.1 = pc) : lookupPC (q :: t) pc = some q.2 := by
  have ht : (fun q2 : String × DT => decide (q2.1 = pc)) q = true := by simp [h]
  unfold lookupPC
  rw [List.find?_cons_of_pos t ht]
  rfl

theorem lookupPC_cons_false (q : String × DT) (t : List (String × DT)) (pc : String)
    (h : ¬ q.1 = pc) : lookupPC (q :: t) pc = lookupPC t pc := by
  have ht : ¬ ((fun q2 : String × DT => decide (q2.1 = pc)) q = true) := by simp [h]
  unfold lookupPC
  rw [List.find?_cons_of_neg t ht]

theorem lookupPC_append_ne (mapeo : List (String × DT)) (pc pc2 : String) (v : DT)
    (h : pc2 ≠ pc) : lookupPC (mapeo ++ [(pc2, v)]) pc = lookupPC mapeo pc := by
  induction mapeo with
  | nil => simp [lookupPC, h]
  | cons q t ih =>
      rw [List.cons_append]
      by_cases hq : q.1 = pc
      · rw [lookupPC_cons_true q _ pc hq, lookupPC_cons_true q t pc hq]
      · rw [lookupPC_cons_false q _ pc hq, lookupPC_cons_false q t pc hq]
        exact ih

theorem lookupPC_append_self (mapeo : List (String × DT)) (pc : String) (v : DT)
    (h : lookupPC mapeo pc = none) : lookupPC (mapeo ++ [(pc, v)]) pc = some v := by
  induction mapeo with
  | nil => simp [lookupPC]
  | cons q t ih =>
      rw [List.cons_append]
      by_cases hq : q.1 = pc
      · rw [lookupPC_cons_true q t pc hq] at h
        exact Option.noConfusion h
      · rw [lookupPC_cons_false q t pc hq] at h
        rw [lookupPC_cons_false q _ pc hq]
        exact ih h

theorem lookupPC_update_ne (mapeo : List (String × DT)) (pc pc2 : String) (v : DT)
    (h : pc2 ≠ pc) : lookupPC (updatePC mapeo pc2 v) pc = lookupPC mapeo pc := by
  induction mapeo with
  | nil => rfl
  | cons q t ih =>
      show lookupPC ((if q.1 = pc2 then (pc2, v) else q) :: updatePC t pc2 v) pc = _
      by_cases hq2 : q.1 = pc2
      · rw [if_pos hq2]
        rw [lookupPC_cons_false (pc2, v) _ pc h,
          lookupPC_cons_false q t pc (by rw [hq2]; exact h)]
        exact ih
      · rw [if_neg hq2]
        by_cases hq : q.1 = pc
        · rw [lookupPC_cons_true q _ pc hq, lookupPC_cons_true q t pc hq]
        · rw [lookupPC_cons_false q _ pc hq, lookupPC_cons_false q t pc hq]
          exact ih

theorem lookupPC_update_self (mapeo : List (String × DT)) (pc : String) (v : DT)
    (h : (lookupPC mapeo pc).isSome = true) :
    lookupPC (updatePC mapeo pc v) pc = some v := by
  induction mapeo with
  | nil => exact absurd h (by simp [lookupPC])
  | cons q t ih =>
      show lookupPC ((if q.1 = pc then (pc, v) else q) :: updatePC t pc v) pc = _
      by_cases hq : q.1 = pc
      · rw [if_pos hq]
        rw [lookupPC_cons_true (pc, v) _ pc rfl]
      · rw [if_neg hq]
        rw [lookupPC_cons_false q t pc hq] at h
        rw [lookupPC_cons_false q _ pc hq]
        exact ih h

theorem anchorCands_cons_pos (primera : Int) (pc : String) (e : (String × Int) × DT)
    (t : List ((String × Int) × DT))
    (h : e.1.1 = pc ∧ (e.1.2 = primera ∨ (e.1.2 = primera - 1 ∧ 22 ≤ dtHour e.2))) :
    anchorCands primera pc (e :: t) = e.2 :: anchorCands primera pc t := by
  have he : (fun e2 : (String × Int) × DT =>
      if e2.1.1 = pc ∧ (e2.1.2 = primera ∨ (e2.1.2 = primera - 1 ∧ 22 ≤ dtHour e2.2))
      then some e2.2 else none) e = some e.2 := if_pos h
  simp only [anchorCands, List.filterMap_cons, he]

theorem anchorCands_cons_neg (primera : Int) (pc : String) (e : (String × Int) × DT)
    (t : List ((String × Int) × DT))
    (h : ¬ (e.1.1 = pc ∧ (e.1.2 = primera ∨ (e.1.2 = primera - 1 ∧ 22 ≤ dtHour e.2)))) :
    anchorCands primera pc (e :: t) = anchorCands primera pc t := by
  have he : (fun e2 : (String × Int) × DT =>
      if e2.1.1 = pc ∧ (e2.1.2 = primera ∨ (e2.1.2 = primera - 1 ∧ 22 ≤ dtHour e2.2))
      then some e2.2 else none) e = none := if_neg h
  simp only [anchorCands, List.filterMap_cons, he]

theorem buildMapeo_lookup (primera : Int) (pc : String) :
    ∀ (cfg : List ((String × Int) × DT)) (mapeo : List (String × DT)),
      lookupPC (cfg.foldl (mapeoStep primera) mapeo) pc
        = (anchorCands primera pc cfg).foldl anchorStep (lookupPC mapeo pc) := by
  intro cfg
  induction cfg with
  | nil => intro mapeo; rfl
  | cons e t ih =>
      intro mapeo
      simp only [List.foldl_cons]
      by_cases hcand : e.1.1 = pc ∧ (e.1.2 = primera ∨ (e.1.2 = primera - 1 ∧ 22 ≤ dtHour e.2))
      · rw [anchorCands_cons_pos primera pc e t hcand, List.foldl_cons,
          ih (mapeoStep primera mapeo e)]
        obtain ⟨hpc, hdate⟩ := hcand
        have hdate2 : e.1.2 = primera ∨ e.1.2 = primera - 1 := hdate.imp id And.left
        have hskip : ¬ (e.1.2 = primera - 1 ∧ dtHour e.2 < 22) := by
          rcases hdate with h | ⟨h1, h2⟩
          · rintro ⟨hh, _⟩; omega
          · rintro ⟨_, hh⟩; omega
        have hstep : lookupPC (mapeoStep primera mapeo e) pc
            = anchorStep (lookupPC mapeo pc) e.2 := by
          unfold mapeoStep
          rw [if_pos hdate2, if_neg hskip, hpc]
          cases hcur : lookupPC mapeo pc with
          | none =>
              show lookupPC (mapeo ++ [(pc, e.2)]) pc = some e.2
              exact lookupPC_append_self mapeo pc e.2 hcur
          | some cur =>
              show lookupPC
                  (if (dtHour cur < 22 ∧ 22 ≤ dtHour e.2) ∨
                      (22 ≤ dtHour cur ∧ 22 ≤ dtHour e.2 ∧ cur < e.2) then
                    updatePC mapeo pc e.2
                  else mapeo) pc
                = anchorStep (some cur) e.2
              by_cases hrep : (dtHour cur < 22 ∧ 22 ≤ dtHour e.2) ∨
                  (22 ≤ dtHour cur ∧ 22 ≤ dtHour e.2 ∧ cur < e.2)
              · rw [if_pos hrep,
                  show anchorStep (some cur) e.2 = some e.2 from by
                    show (if (dtHour cur < 22 ∧ 22 ≤ dtHour e.2) ∨
                        (22 ≤ dtHour cur ∧ 22 ≤ dtHour e.2 ∧ cur < e.2) then some e.2
                      else some cur) = some e.2
                    rw [if_pos hrep]]
                exact lookupPC_update_self mapeo pc e.2 (by rw [hcur]; rfl)
              · rw [if_neg hrep,
                  show anchorStep (some cur) e.2 = some cur from by
                    show (if (dtHour cur < 22 ∧ 22 ≤ dtHour e.2) ∨
                        (22 ≤ dtHour cur ∧ 22 ≤ dtHour e.2 ∧ cur < e.2) then some e.2
                      else some cur) = some cur
                    rw [if_neg hrep]]
                exact hcur
        rw [hstep]
      · rw [anchorCands_cons_neg primera pc e t hcand, ih (mapeoStep primera mapeo e)]
        have hstep : lookupPC (mapeoStep primera mapeo e) pc = lookupPC mapeo pc := by
          unfold mapeoStep
          by_cases hd : e.1.2 = primera ∨ e.1.2 = primera - 1
          · rw [if_pos hd]
            by_cases hsk : e.1.2 = primera - 1 ∧ dtHour e.2 < 22
            · rw [if_pos hsk]
            · rw [if_neg hsk]
              have hne : e.1.1 ≠ pc := by
                intro hpce
                apply hcand
                refine ⟨hpce, ?_⟩
                rcases hd with h | h
                · exact Or.inl h
                · exact Or.inr ⟨h, le_of_not_lt (fun hh => hsk ⟨h, hh⟩)⟩
              cases hcur : lookupPC mapeo e.1.1 with
              | none =>
                  show lookupPC (mapeo ++ [(e.1.1, e.2)]) pc = lookupPC mapeo pc
                  exact lookupPC_append_ne mapeo pc e.1.1 e.2 hne
              | some cur =>
                  show lookupPC
                      (if (dtHour cur < 22 ∧ 22 ≤ dtHour e.2) ∨
                          (22 ≤ dtHour cur ∧ 22 ≤ dtHour e.2 ∧ cur < e.2) then
                        updatePC mapeo e.1.1 e.2
                      else mapeo) pc
                    = lookupPC mapeo pc
                  by_cases hrep : (dtHour cur < 22 ∧ 22 ≤ dtHour e.2) ∨
                      (22 ≤ dtHour cur ∧ 22 ≤ dtHour e.2 ∧ cur < e.2)
                  · rw [if_pos hrep]
                    exact lookupPC_update_ne mapeo pc e.1.1 e.2 hne
                  · rw [if_neg hrep]
          · rw [if_neg hd]
        rw [hstep]

theorem withIdxG_length {α : Type} :
    ∀ (l : List α) (a : ℕ), (withIdxG a l).length = l.length := by
  intro l
  induction l with
  | nil => intro a; rfl
  | cons b t ih =>
      intro a
      show (withIdxG (a + 1) t).length + 1 = t.length + 1
      rw [ih]

theorem withIdxG_getElem {α : Type} :
    ∀ (l : List α) (a j : ℕ),
      (withIdxG a l)[j]? = (l[j]?).map (fun r => (a + j, r)) := by
  intro l
  induction l with
  | nil => intro a j; rfl
  | cons b t ih =>
      intro a j
      cases j with
      | zero => simp [withIdxG]
      | succ j2 =>
          rw [show withIdxG a (b :: t) = (a, b) :: withIdxG (a + 1) t from rfl,
            List.getElem?_cons_succ, List.getElem?_cons_succ, ih (a + 1) j2]
          cases t[j2]? with
          | none => rfl
          | some r =>
              show some (a + 1 + j2, r) = some (a + (j2 + 1), r)
              rw [show a + 1 + j2 = a + (j2 + 1) from by omega]

theorem groupOf_scale15 (m : Int) (df : List (ℕ × TRow)) (f mv : String) :
    groupOf (df.map (scaleRow15 m)) f mv = (groupOf df f mv).map (scaleRow15 m) := by
  unfold groupOf
  rw [filter_map_comm]
  rfl

theorem sortGroup_scale15 (m : Int) (g : List (ℕ × TRow)) :
    sortGroup (g.map (scaleRow15 m)) = (sortGroup g).map (scaleRow15 m) :=
  sortBy_map rowLe rowLe (scaleRow15 m) (fun _ _ => rfl) g

theorem fechaBase_scale15 (m : Int) (g : List (ℕ × TRow)) :
    fechaBase (g.map (scaleRow15 m)) = fechaBase g := by
  unfold fechaBase
  rw [List.head?_map]
  cases g.head? <;> rfl

/-- C7 (amended): under FIFTEEN_MIN mode every tracked value is scaled to
`round_half_even(15·v / minutes_per_sample)`, but the 15-minute bucket a
record is re-timestamped to is `15 × (original index label % group size)`
minutes after midnight — NOT its position in the sorted group.  Only when
the group's index labels form a consecutive run that starts at a multiple
of the group size (`sortGroup = withIdxG a rs` with `a % |rs| = 0`, the
usual single-group day-file) do the buckets come out contiguous,
non-overlapping from midnight, with sorted row order as bucket order: the
`j`-th row of the sorted group lands at `midnight + 15·j`. -/
theorem claim_C7 (m : Int) (df : List (ℕ × TRow)) (f mv : String)
    (a : ℕ) (rs : List TRow)
    (hs : sortGroup (groupOf df f mv) = withIdxG a rs)
    (hmod : a % rs.length = 0) :
    ∀ j : ℕ, j < rs.length →
      (procesarGrupo15 (groupOf (df.map (scaleRow15 m)) f mv) f mv)[j]?
        = (rs[j]?).map (fun r =>
          { proyecto := r.proyecto
            localizacion := r.localizacion
            fuente := f
            geolocalizacion := r.geolocalizacion
            movimiento := mv
            intervaloStart := fechaBaseOf df f mv + 15 * (j : Int)
            tricycle := roundHalfEvenFrac { num := 15 * r.tricycle, den := m } }) := by
  intro j hj
  have hsg : sortGroup (groupOf (df.map (scaleRow15 m)) f mv)
      = (withIdxG a rs).map (scaleRow15 m) := by
    rw [groupOf_scale15, sortGroup_scale15, hs]
  have hbase : fechaBase (sortGroup (groupOf (df.map (scaleRow15 m)) f mv))
      = fechaBaseOf df f mv := by
    rw [hsg, fechaBase_scale15]
    unfold fechaBaseOf
    rw [hs]
  have hlen : (sortGroup (groupOf (df.map (scaleRow15 m)) f mv)).length = rs.length := by
    rw [hsg, List.length_map, withIdxG_length]
  unfold procesarGrupo15
  rw [List.getElem?_map, hlen, hbase, hsg, List.getElem?_map, withIdxG_getElem]
  have h1 : (a + j) % rs.length = j := by
    rw [Nat.add_mod, hmod, Nat.mod_eq_of_lt hj, Nat.zero_add, Nat.mod_eq_of_lt hj]
  have hmodj : ((a + j : ℕ) : Int) % ((rs.length : ℕ) : Int) = (j : Int) := by
    exact_mod_cast h1
  cases hr : rs[j]? with
  | none => rfl
  | some r =>
      show some (ORow.mk r.proyecto r.localizacion f r.geolocalizacion mv
            (fechaBaseOf df f mv + 15 * (((a + j : ℕ) : Int) % ((rs.length : ℕ) : Int)))
            (roundHalfEvenFrac { num := 15 * r.tricycle, den := m }))
          = some (ORow.mk r.proyecto r.localizacion f r.geolocalizacion mv
            (fechaBaseOf df f mv + 15 * (j : Int))
            (roundHalfEvenFrac { num := 15 * r.tricycle, den := m }))
      rw [hmodj]

/-- A single-group day-file with consecutive labels starting at 0,
for the C7 witness. -/
def witRs7 : List TRow :=
  [{ proyecto := "P", localizacion := "L", fuente := "A", geolocalizacion := "G",
     movimiento := "1", intervalo := "a1", start := 30, tricycle := 2 },
   { proyecto := "P", localizacion := "L", fuente := "A", geolocalizacion := "G",
     movimiento := "1", intervalo := "a2", start := 35, tricycle := 3 }]

def witDf7 : List (ℕ × TRow) := withIdxG 0 witRs7

/-- Witness for C7 at a concrete day-file, bucket 0. -/
theorem claim_C7_witness :
    sortGroup (groupOf witDf7 "A" "1") = withIdxG 0 witRs7 ∧
    0 % witRs7.length = 0 ∧ 0 < witRs7.length ∧
    (procesarGrupo15 (groupOf (witDf7.map (scaleRow15 5)) "A" "1") "A" "1")[0]?
      = (witRs7[0]?).map (fun r =>
        { proyecto := r.proyecto
          localizacion := r.localizacion
          fuente := "A"
          geolocalizacion := r.geolocalizacion
          movimiento := "1"
          intervaloStart := fechaBaseOf witDf7 "A" "1" + 15 * ((0 : ℕ) : Int)
          tricycle := roundHalfEvenFrac { num := 15 * r.tricycle, den := 5 } }) :=
  ⟨by decide, by decide, by decide,
    claim_C7 5 witDf7 "A" "1" 0 witRs7 (by decide) (by decide) 0 (by decide)⟩

/-- An AnchorMap holding, for control point "PC", a same-day entry at
06:00 of day 100 and a previous-day entry at 23:00 of day 99. -/
def cexCfg4 : List ((String × Int) × DT) :=
  [(("PC", 100), 100 * 1440 + 6 * 60), (("PC", 99), 99 * 1440 + 23 * 60)]

/-- C4 counterexample: the AnchorMap entry for (control point, date of the
file's first record) exists (06:00 of the target day), yet the anchor the
Interval Corrector resolves is the PREVIOUS day's 23:00 entry: a
qualifying previous-day anchor overrides a same-day anchor whose hour is
below 22, so the same-day entry is not "used" as the claim states. -/
theorem claim_C4_counterexample :
    (cexCfg4.find? (fun e => e.1.1 = "PC" ∧ e.1.2 = 100)).map Prod.snd
      = some (100 * 1440 + 6 * 60) ∧
    lookupPC (buildMapeo 100 cexCfg4) "PC" = some (99 * 1440 + 23 * 60) ∧
    dtDate (99 * 1440 + 23 * 60) = 100 - 1 ∧
    (99 * 1440 + 23 * 60 : Int) ≠ 100 * 1440 + 6 * 60 := by
  decide

/-- C4 (amended): the anchor the Interval Corrector resolves for a control
point is combined from the AnchorMap entries for (control point, date of
the file's first record) — any hour — and (control point, previous day) —
only if its hour is >= 22.  When only one such entry exists it is the
anchor; when BOTH exist, the same-day entry wins only if its own hour is
>= 22, otherwise the previous-day entry OVERRIDES it (regardless of map
order).  A group whose control point has no resolved anchor makes
`corregir_intervalos` raise, which aborts that file's processing with an
error; files are processed independently, so the run continues with the
remaining files. -/
theorem claim_C4 (cfg : List ((String × Int) × DT)) (primera : Int) (pc : String) :
    (anchorCands primera pc cfg = [] → lookupPC (buildMapeo primera cfg) pc = none) ∧
    (∀ t : DT, anchorCands primera pc cfg = [t] →
      lookupPC (buildMapeo primera cfg) pc = some t) ∧
    (∀ s p : Int,
      (anchorCands primera pc cfg = [s, p] ∨ anchorCands primera pc cfg = [p, s]) →
      dtDate s = primera → dtDate p = primera - 1 → 22 ≤ dtHour p →
      lookupPC (buildMapeo primera cfg) pc = some (if 22 ≤ dtHour s then s else p)) ∧
    (∀ (grupo : List TRow) (fuente : String) (mapeo : List (String × DT)),
      corregirIntervalos grupo fuente mapeo = none ↔ lookupPC mapeo fuente = none) ∧
    (∀ (files : List DayFileC4) (j : ℕ),
      (runAll cfg files)[j]? = (files[j]?).map (processDia cfg)) := by
  have hbm : lookupPC (buildMapeo primera cfg) pc
      = (anchorCands primera pc cfg).foldl anchorStep none := by
    unfold buildMapeo
    rw [buildMapeo_lookup primera pc cfg []]
    rfl
  refine ⟨?_, ?_, ?_, ?_, ?_⟩
  · intro h
    rw [hbm, h]
    rfl
  · intro t ht
    rw [hbm, ht]
    rfl
  · intro s p horder hds hdp hp22
    have hps : p < s := by
      unfold dtDate at hds hdp
      rw [Int.fdiv_eq_ediv s (by norm_num)] at hds
      rw [Int.fdiv_eq_ediv p (by norm_num)] at hdp
      have e1 := Int.ediv_add_emod s 1440
      have e2 := Int.ediv_add_emod p 1440
      have m1 := Int.emod_nonneg s (show (1440 : Int) ≠ 0 by norm_num)
      have m2 := Int.emod_nonneg p (show (1440 : Int) ≠ 0 by norm_num)
      have l1 := Int.emod_lt_of_pos s (show (0 : Int) < 1440 by norm_num)
      have l2 := Int.emod_lt_of_pos p (show (0 : Int) < 1440 by norm_num)
      omega
    rcases horder with h | h
    · rw [hbm, h]
      show (if (dtHour s < 22 ∧ 22 ≤ dtHour p) ∨
          (22 ≤ dtHour s ∧ 22 ≤ dtHour p ∧ s < p) then some p else some s) = _
      by_cases h22 : 22 ≤ dtHour s
      · have hc : ¬ ((dtHour s < 22 ∧ 22 ≤ dtHour p) ∨
            (22 ≤ dtHour s ∧ 22 ≤ dtHour p ∧ s < p)) := by
          rintro (⟨h1, _⟩ | ⟨_, _, h3⟩) <;> omega
        rw [if_neg hc, if_pos h22]
      · have hc : (dtHour s < 22 ∧ 22 ≤ dtHour p) ∨
            (22 ≤ dtHour s ∧ 22 ≤ dtHour p ∧ s < p) := Or.inl ⟨by omega, hp22⟩
        rw [if_pos hc, if_neg h22]
    · rw [hbm, h]
      show (if (dtHour p < 22 ∧ 22 ≤ dtHour s) ∨
          (22 ≤ dtHour p ∧ 22 ≤ dtHour s ∧ p < s) then some s else some p) = _
      by_cases h22 : 22 ≤ dtHour s
      · have hc : (dtHour p < 22 ∧ 22 ≤ dtHour s) ∨
            (22 ≤ dtHour p ∧ 22 ≤ dtHour s ∧ p < s) := Or.inr ⟨hp22, h22, hps⟩
        rw [if_pos hc, if_pos h22]
      · have hc : ¬ ((dtHour p < 22 ∧ 22 ≤ dtHour s) ∨
            (22 ≤ dtHour p ∧ 22 ≤ dtHour s ∧ p < s)) := by
          rintro (⟨h1, _⟩ | ⟨_, h2, _⟩) <;> omega
        rw [if_neg hc, if_neg h22]
  · intro grupo fuente mapeo
    cases hl : lookupPC mapeo fuente with
    | none => simp [corregirIntervalos, hl]
    | some fh => simp [corregirIntervalos, hl]
  · intro files j
    unfold runAll
    exact List.getElem?_map ..

/-- An AnchorMap with a same-day 05:00 entry and a previous-day 23:00
entry for "PC", for the C4 witness. -/
def witCfg4 : List ((String × Int) × DT) :=
  [(("PC", 100), 100 * 1440 + 5 * 60), (("PC", 99), 99 * 1440 + 23 * 60)]

/-- Witness for C4: at the concrete AnchorMap both candidates exist and
the resolved anchor follows the amended rule (here the previous-day entry
wins, since the same-day hour is 5 < 22). -/
theorem claim_C4_witness :
    (anchorCands 100 "PC" witCfg4 = [100 * 1440 + 5 * 60, 99 * 1440 + 23 * 60] ∨
      anchorCands 100 "PC" witCfg4 = [99 * 1440 + 23 * 60, 100 * 1440 + 5 * 60]) ∧
    dtDate (100 * 1440 + 5 * 60) = 100 ∧
    dtDate (99 * 1440 + 23 * 60) = 100 - 1 ∧
    22 ≤ dtHour (99 * 1440 + 23 * 60) ∧
    lookupPC (buildMapeo 100 witCfg4) "PC"
      = some (if 22 ≤ dtHour (100 * 1440 + 5 * 60) then 100 * 1440 + 5 * 60
              else 99 * 1440 + 23 * 60) :=
  ⟨by decide, by decide, by decide, by decide,
    (claim_C4 witCfg4 100 "PC").2.2.1 (100 * 1440 + 5 * 60) (99 * 1440 + 23 * 60)
      (by decide) (by decide) (by decide) (by decide)⟩

/-- A concrete output record of the hourly pipeline, for the C6 witness. -/
def witR6 : ORow := ((interpolarDatosHorarios cexDf15).head?).getD (emitHorario [] "" "" 0)

set_option maxRecDepth 40000 in
/-- Witness for C6 at a concrete day-file and output record. -/
theorem claim_C6_witness :
    witR6 ∈ interpolarDatosHorarios cexDf15 ∧
    ∃ k : ℕ, k < 96 ∧
      witR6.intervaloStart
        = fechaBaseOf cexDf15 witR6.fuente witR6.movimiento + 15 * (k : Int) ∧
      witR6.tricycle = MergeClPh.clip0 (roundHalfEvenFrac
        { num := (3 * horaValorRaw cexDf15 witR6.fuente witR6.movimiento ((k : Int) / 4))
            * weightNum (15 * ((k : Int) % 4)),
          den := 10 }) :=
  ⟨by decide, claim_C6 cexDf15 witR6 (by decide)⟩

end InterpTricycles
